import Mathlib

/-
  Verification of the marketing-asset-manager core: a shallow embedding of
  the Asset data model (src/models/asset.py), the validation pipeline
  (src/services/asset_validator.py), the budget manager
  (src/services/budget_manager.py) and the filename parser
  (src/utils/asset_parser.py).

  Modelling conventions:
  * Python `int` is `Int`; Python `float` arithmetic is modelled exactly over
    `ℚ` (the float literals 0.4, 0.6, 0.7, 0.3, 1.2, 0.8, 1.0 of the source
    are taken at their decimal value).
  * Python `Optional[T]` is `Option T`; Python truthiness of optional
    numbers/strings is made explicit (`None`, `0` and `""` are falsy).
  * The two external collaborators that are imported but live outside the
    validated core (`src/services/google_ads.py`, `src/services/openai_api.py`)
    are black boxes per spec section 6: each external call is an oracle value
    supplied by the environment (`AttemptOutcome` for the ads endpoint,
    an `Option` pair for the image analyzer).
  * `datetime` values are year/month/day/.../microsecond tuples compared
    lexicographically, as CPython compares aware-naive-free datetimes.
-/

namespace MarketingAssets

/-! ## Python primitives -/

/-- Python truthiness of an `Optional[int]`: `None` and `0` are falsy. -/
def optIntTruthy : Option Int → Bool
  | none => false
  | some n => n ≠ 0

/-- Python truthiness of an `Optional[str]`: `None` and `""` are falsy. -/
def optStrTruthy : Option String → Bool
  | none => false
  | some s => s ≠ ""

/-- Python `int(q)` on a rational value: truncation toward zero. -/
def pyInt (q : ℚ) : Int := q.num.tdiv (q.den : Int)

/-- Python `str.split(sep)` for a single-character separator, on char lists.
`"".split(sep) == [""]` and separators at the ends produce empty parts. -/
def pySplit (sep : Char) : List Char → List (List Char)
  | [] => [[]]
  | c :: cs =>
    if c = sep then [] :: pySplit sep cs
    else
      match pySplit sep cs with
      | [] => [[c]]
      | p :: ps => (c :: p) :: ps

/-- A CPython `datetime.datetime` value (naive), compared lexicographically. -/
structure PyDateTime where
  year : Nat
  month : Nat
  day : Nat
  hour : Nat := 0
  minute : Nat := 0
  second : Nat := 0
  micro : Nat := 0
  deriving DecidableEq, Repr

/-- CPython `datetime` strict `>` comparison (lexicographic on components). -/
def PyDateTime.gtB (a b : PyDateTime) : Bool :=
  if a.year ≠ b.year then b.year < a.year
  else if a.month ≠ b.month then b.month < a.month
  else if a.day ≠ b.day then b.day < a.day
  else if a.hour ≠ b.hour then b.hour < a.hour
  else if a.minute ≠ b.minute then b.minute < a.minute
  else if a.second ≠ b.second then b.second < a.second
  else b.micro < a.micro

/-- A calendar date, as produced by `datetime.strptime` (time fields zero). -/
structure PyDate where
  year : Nat
  month : Nat
  day : Nat
  deriving DecidableEq, Repr

/-- The midnight `datetime` of a parsed expiry date. -/
def PyDate.toDateTime (d : PyDate) : PyDateTime :=
  { year := d.year, month := d.month, day := d.day }

/-! ## The Asset data model (src/models/asset.py)

String fields that are required positional arguments of the Python dataclass
are given `""` defaults here purely so that concrete test instances can be
written compactly; every theorem quantifies over all field values. -/

structure Asset where
  filename : String := ""
  country : String := ""
  language : String := ""
  buyout_code : String := ""
  concept : String := ""
  audience : String := ""
  transaction_side : String := ""
  asset_format : String := ""
  duration : String := ""
  file_format : String := ""
  file_id : Option String := none
  mime_type : Option String := none
  size_bytes : Option Int := none
  production_date : Option PyDateTime := none
  year : Option Int := none
  month : Option Int := none
  budget : Int := 0
  ad_id : Option String := none
  clicks : Option Int := none
  impressions : Option Int := none
  conversions : Option Int := none
  is_valid_name : Bool := false
  is_buyout_valid : Bool := false
  quality_score : Option ℚ := none
  is_privacy_compliant : Option Bool := none
  previous_budget : Option Int := none
  budget_updated_at : Option PyDateTime := none
  budget_update_reason : Option String := none
  deriving DecidableEq, Repr

/-- `Asset.is_valid` (asset.py lines 47-60): valid name, and (valid buyout or
quality score known and strictly above 5), and privacy compliance known and
true. -/
def Asset.is_valid (a : Asset) : Bool :=
  a.is_valid_name
    && (a.is_buyout_valid
        || (match a.quality_score with
            | none => false
            | some q => decide (5 < q)))
    && (match a.is_privacy_compliant with
        | none => false
        | some p => p)

/-- `Asset.click_through_rate` (asset.py lines 62-67):
`if self.impressions and self.impressions > 0 and self.clicks is not None`. -/
def Asset.click_through_rate (a : Asset) : Option ℚ :=
  if optIntTruthy a.impressions && decide (0 < a.impressions.getD 0)
      && a.clicks.isSome then
    some ((a.clicks.getD 0 : ℚ) / (a.impressions.getD 0 : ℚ))
  else none

/-- `Asset.conversion_rate` (asset.py lines 69-74):
`if self.clicks and self.clicks > 0 and self.conversions is not None`. -/
def Asset.conversion_rate (a : Asset) : Option ℚ :=
  if optIntTruthy a.clicks && decide (0 < a.clicks.getD 0)
      && a.conversions.isSome then
    some ((a.conversions.getD 0 : ℚ) / (a.clicks.getD 0 : ℚ))
  else none

/-- `Asset.performance_score` (asset.py lines 76-88): declared `Optional` in
Python but always returns a number; missing rates default to 0 via `or 0`. -/
def Asset.performance_score (a : Asset) : Option ℚ :=
  let ctr := a.click_through_rate.getD 0
  let cvr := a.conversion_rate.getD 0
  some (ctr * 0.4 + cvr * 0.6)

/-- The (always defined) value carried by `performance_score`; proof helper. -/
def psVal (a : Asset) : ℚ := a.performance_score.getD 0

/-- `Asset.update_budget` (asset.py lines 90-100). -/
def Asset.update_budget (a : Asset) (new_budget : Int) (reason : String)
    (now : PyDateTime) : Asset :=
  { a with
    previous_budget := some a.budget
    budget := new_budget
    budget_updated_at := some now
    budget_update_reason := some reason }

/-! ## Expiry-date parsing (asset_validator.py lines 85-100)

`datetime.strptime` with the four formats `%d/%m/%Y`, `%m/%d/%Y`, `%Y-%m-%d`,
`%Y/%m/%d`.  CPython's `_strptime` matches `%d` by a 1-2 digit number in
1..31, `%m` by a 1-2 digit number in 1..12 and `%Y` by exactly four digits,
requires the whole string to be consumed, and then the `datetime` constructor
rejects year 0 and a day beyond the month's length (a `ValueError`, which the
source catches and treats as "this format did not parse"). -/

def digitsToNat (l : List Char) : Nat :=
  l.foldl (fun n c => 10 * n + (c.toNat - '0'.toNat)) 0

/-- strptime `%d`: one or two digits with value 1..31. -/
def parseDayField (l : List Char) : Option Nat :=
  if (l.length = 1 ∨ l.length = 2) ∧ l.all Char.isDigit then
    let v := digitsToNat l
    if 1 ≤ v ∧ v ≤ 31 then some v else none
  else none

/-- strptime `%m`: one or two digits with value 1..12. -/
def parseMonthField (l : List Char) : Option Nat :=
  if (l.length = 1 ∨ l.length = 2) ∧ l.all Char.isDigit then
    let v := digitsToNat l
    if 1 ≤ v ∧ v ≤ 12 then some v else none
  else none

/-- strptime `%Y`: exactly four digits. -/
def parseYearField (l : List Char) : Option Nat :=
  if l.length = 4 ∧ l.all Char.isDigit then some (digitsToNat l) else none

def isLeapYear (y : Nat) : Bool := y % 4 = 0 ∧ (y % 100 ≠ 0 ∨ y % 400 = 0)

def daysInMonth (y m : Nat) : Nat :=
  if m = 2 then (if isLeapYear y then 29 else 28)
  else if m = 4 ∨ m = 6 ∨ m = 9 ∨ m = 11 then 30
  else 31

/-- The `datetime(year, month, day)` constructor's validation (year 1..9999,
day within the month); field parsers already bound the month. -/
def mkValidDate (y m d : Nat) : Option PyDate :=
  if 1 ≤ y ∧ y ≤ 9999 ∧ d ≤ daysInMonth y m then some ⟨y, m, d⟩ else none

/-- `strptime(s, "%d/%m/%Y")`. -/
def parseDMY (s : List Char) : Option PyDate :=
  match pySplit '/' s with
  | [p1, p2, p3] => do
    let d ← parseDayField p1
    let m ← parseMonthField p2
    let y ← parseYearField p3
    mkValidDate y m d
  | _ => none

/-- `strptime(s, "%m/%d/%Y")`. -/
def parseMDY (s : List Char) : Option PyDate :=
  match pySplit '/' s with
  | [p1, p2, p3] => do
    let m ← parseMonthField p1
    let d ← parseDayField p2
    let y ← parseYearField p3
    mkValidDate y m d
  | _ => none

/-- `strptime(s, "%Y-%m-%d")`. -/
def parseYMDdash (s : List Char) : Option PyDate :=
  match pySplit '-' s with
  | [p1, p2, p3] => do
    let y ← parseYearField p1
    let m ← parseMonthField p2
    let d ← parseDayField p3
    mkValidDate y m d
  | _ => none

/-- `strptime(s, "%Y/%m/%d")`. -/
def parseYMDslash (s : List Char) : Option PyDate :=
  match pySplit '/' s with
  | [p1, p2, p3] => do
    let y ← parseYearField p1
    let m ← parseMonthField p2
    let d ← parseDayField p3
    mkValidDate y m d
  | _ => none

/-- The format loop of `validate_buyout_code` (asset_validator.py lines
87-96): the four formats are tried in order and the first success wins. -/
def parseExpiry (s : List Char) : Option PyDate :=
  match parseDMY s with
  | some d => some d
  | none =>
    match parseMDY s with
    | some d => some d
    | none =>
      match parseYMDdash s with
      | some d => some d
      | none => parseYMDslash s

/-! ## AssetValidator (src/services/asset_validator.py) -/

/-- `AssetValidator.validate_asset_name` (lines 29-58): all eight required
string fields must be truthy (non-empty). -/
def validate_asset_name (a : Asset) : Bool :=
  a.country ≠ "" && a.language ≠ "" && a.buyout_code ≠ "" && a.concept ≠ ""
    && a.audience ≠ "" && a.transaction_side ≠ "" && a.asset_format ≠ ""
    && a.duration ≠ ""

/-- `AssetValidator.validate_buyout_code` (lines 60-115).  The expiry table is
an association list (a Python dict, keys unique); `now` is `datetime.now()`. -/
def validate_buyout_code (now : PyDateTime) (buyout_data : List (String × String))
    (a : Asset) : Bool :=
  if a.buyout_code = "" then false
  else
    match buyout_data.lookup a.buyout_code with
    | none => false
    | some s =>
      if s = "" then false
      else
        match parseExpiry s.data with
        | none => false
        | some d => if now.gtB d.toDateTime then false else true

/-- Outcome of one call to the external ads endpoint
(`google_ads.py` is outside the validated core, spec section 6): a response
without an `"error"` key, a response with one, or a raised exception. -/
inductive AttemptOutcome where
  | ok
  | err
  | exn
  deriving DecidableEq, Repr

/-- The shared 3-attempt retry shape of `AssetValidator.update_asset_budget`
(lines 195-218): the i-th external call's outcome comes from `attempts`;
success returns true immediately, an error or exception on the final attempt
returns false, otherwise the loop retries.  Second argument is the next
attempt index, third the number of loop iterations left. -/
def retryLoop (attempts : Nat → AttemptOutcome) : Nat → Nat → Bool
  | _, 0 => false
  | i, rem + 1 =>
    match attempts i with
    | .ok => true
    | .err => if rem = 0 then false else retryLoop attempts (i + 1) rem
    | .exn => if rem = 0 then false else retryLoop attempts (i + 1) rem

/-- `AssetValidator.update_asset_budget` (lines 174-218): best-effort push of
the (possibly zeroed) budget to the ads endpoint.  It never mutates the
asset; it only reports success. -/
def validatorPushBudget (attempts : Nat → AttemptOutcome) (a : Asset)
    (set_to_zero : Bool) : Bool :=
  if ¬ optStrTruthy a.ad_id then false
  else if ¬ optStrTruthy a.file_id then false
  else
    let _new_budget : Int := if set_to_zero then 0 else a.budget
    retryLoop attempts 0 3

/-- Environment of one `validate_asset` run: the clock, the image-quality
analysis outcome (the analyzer and the local file system are outside the
core; `validate_image_quality` degrades every failure to `(None, None)` and
otherwise yields the analyzer's quality/privacy pair), and the ads-endpoint
oracle for the budget push. -/
structure ValidationEnv where
  now : PyDateTime
  quality : Option ℚ
  privacy : Option Bool
  adsAttempts : Nat → AttemptOutcome

/-- `AssetValidator.validate_asset` (lines 220-261): the four-stage pipeline.
Stages 1-3 run unconditionally; stage 4 (budget zeroing) runs iff stage 2
failed, and the local `budget = 0` assignment is made after the best-effort
remote push regardless of the push's outcome. -/
def validate_asset (env : ValidationEnv) (buyout_data : List (String × String))
    (a0 : Asset) : Asset :=
  let a1 := { a0 with is_valid_name := validate_asset_name a0 }
  let a2 := { a1 with is_buyout_valid := validate_buyout_code env.now buyout_data a1 }
  let a3 := { a2 with quality_score := env.quality,
                      is_privacy_compliant := env.privacy }
  if a3.is_buyout_valid then a3
  else
    let _pushed := validatorPushBudget env.adsAttempts a3 true
    { a3 with budget := 0 }

/-! ## BudgetManager (src/services/budget_manager.py) -/

/-- One entry of `self.budget_changes` (lines 133-143). -/
structure ChangeRecord where
  filename : String
  ad_id : Option String
  previous_budget : Option Int
  new_budget : Int
  adjustment_factor : ℚ
  reason : String
  timestamp : PyDateTime
  deriving DecidableEq, Repr

/-- Result of one `BudgetManager.update_asset_budget` call: the returned
boolean, the (possibly mutated) asset, the change records appended to
`self.budget_changes` by this call, and the number of external API calls
actually performed. -/
structure UpdateResult where
  success : Bool
  asset : Asset
  records : List ChangeRecord
  callsMade : Nat
  deriving Repr

/-- The retry loop of `BudgetManager.update_asset_budget` (lines 116-156).
Arguments as in `retryLoop`; on a success response the asset is mutated via
`Asset.update_budget` and one change record is appended. -/
def bmUpdateLoop (attempts : Nat → AttemptOutcome) (now : PyDateTime) (a : Asset)
    (new_budget : Int) (factor : ℚ) (reason : String) :
    Nat → Nat → UpdateResult
  | i, 0 => ⟨false, a, [], i⟩
  | i, rem + 1 =>
    match attempts i with
    | .ok =>
      let a' := a.update_budget new_budget reason now
      ⟨true, a',
        [⟨a'.filename, a'.ad_id, a'.previous_budget, new_budget, factor, reason, now⟩],
        i + 1⟩
    | .err =>
      if rem = 0 then ⟨false, a, [], i + 1⟩
      else bmUpdateLoop attempts now a new_budget factor reason (i + 1) rem
    | .exn =>
      if rem = 0 then ⟨false, a, [], i + 1⟩
      else bmUpdateLoop attempts now a new_budget factor reason (i + 1) rem

/-- `BudgetManager.update_asset_budget` (lines 99-156): fails immediately
without an external call when `ad_id` or `file_id` is falsy; otherwise
computes `int(budget * factor)` and runs the retry loop (`max_retries`
defaults to 3). -/
def bm_update_asset_budget (attempts : Nat → AttemptOutcome) (now : PyDateTime)
    (max_retries : Nat) (a : Asset) (factor : ℚ) (reason : String) : UpdateResult :=
  if ¬ optStrTruthy a.ad_id ∨ ¬ optStrTruthy a.file_id then ⟨false, a, [], 0⟩
  else
    bmUpdateLoop attempts now a (pyInt ((a.budget : ℚ) * factor)) factor reason
      0 max_retries

/-- `BudgetManager.group_assets_by_ad` (lines 27-47): a Python dict keyed by
`ad_id` (insertion-ordered association list), appending each asset to its
group; assets with falsy `ad_id` are skipped. -/
def insertGroup (k : String) (a : Asset) :
    List (String × List Asset) → List (String × List Asset)
  | [] => [(k, [a])]
  | (k', l) :: rest =>
    if k' = k then (k', l ++ [a]) :: rest else (k', l) :: insertGroup k a rest

def group_assets_by_ad (assets : List Asset) : List (String × List Asset) :=
  assets.foldl
    (fun m a =>
      if ¬ optStrTruthy a.ad_id then m
      else insertGroup (a.ad_id.getD "") a m)
    []

/-- `BudgetManager.identify_performance_outliers` (lines 49-97).  Assets with
a `None` score are dropped (unreachable, since `performance_score` always
returns a value); the rest are sorted by score descending — Python's
`list.sort(key=..., reverse=True)` is stable, modelled by the stable
`insertionSort` under "score of the left is at least score of the right" —
and the top/bottom `max(1, total // 4)` are selected. -/
def identify_performance_outliers (assets : List Asset) :
    List Asset × List Asset :=
  if assets = [] then ([], [])
  else
    let scored := assets.filterMap fun a => a.performance_score.map fun s => (a, s)
    if scored = [] then ([], [])
    else
      let sorted := scored.insertionSort fun p q => q.2 ≤ p.2
      let total := sorted.length
      let top_count := max 1 (total / 4)
      let low_count := max 1 (total / 4)
      ((sorted.take top_count).map Prod.fst,
       (sorted.drop (total - low_count)).map Prod.fst)

/-- One entry of `self.skipped_assets` (lines 178-196). -/
structure SkipEntry where
  filename : String
  reason : String
  asset_id : Option String
  ad_id : Option (Option String)
  deriving DecidableEq, Repr

/-- One entry of `self.unchanged_assets` (lines 245-254 and 282-291). -/
structure UnchangedEntry where
  filename : String
  reason : String
  asset_id : Option String
  ad_id : Option String
  budget : Int
  score : Option ℚ
  deriving DecidableEq, Repr

/-- The summary dict returned by `adjust_budgets_by_performance`
(lines 298-308). -/
structure Summary where
  total_assets : Nat
  valid_assets : Nat
  total_ads : Nat
  budgets_increased : Nat
  budgets_decreased : Nat
  budgets_unchanged : Nat
  budget_changes : List ChangeRecord
  skipped_assets : List SkipEntry
  unchanged_assets : List UnchangedEntry

/-- The filter step of `adjust_budgets_by_performance` (lines 174-198). -/
def filterStep : List Asset → List Asset × List SkipEntry
  | [] => ([], [])
  | a :: rest =>
    let t := filterStep rest
    if ¬ optStrTruthy a.ad_id then
      (t.1, ⟨a.filename, "Missing ad_id", a.file_id, none⟩ :: t.2)
    else
      match a.performance_score with
      | none =>
        (t.1, ⟨a.filename, "Missing performance metrics", a.file_id, some a.ad_id⟩ :: t.2)
      | some _ => (a :: t.1, t.2)

/-- Mutable state threaded through the per-ad-group loop of
`adjust_budgets_by_performance`: the counters, the accumulated record lists
and the index of the next `update_asset_budget` call (each call draws its
external-attempt oracle from `env` at that index). -/
structure AdjState where
  increased : Nat := 0
  decreased : Nat := 0
  unchangedCount : Nat := 0
  changes : List ChangeRecord := []
  unchanged : List UnchangedEntry := []
  callIdx : Nat := 0

/-- The update loops over top/low performers (lines 269-278): each asset gets
one `update_asset_budget` call; the counter increments only on success. -/
def runUpdates (env : Nat → Nat → AttemptOutcome) (now : PyDateTime) (factor : ℚ)
    (reason : String) : List Asset → Nat → Nat × Nat × List ChangeRecord
  | [], k => (k, 0, [])
  | a :: rest, k =>
    let r := bm_update_asset_budget (env k) now 3 a factor reason
    let t := runUpdates env now factor reason rest (k + 1)
    (t.1, (if r.success then 1 else 0) + t.2.1, r.records ++ t.2.2)

/-- The body of the per-ad-group loop (lines 211-295). -/
def processGroup (env : Nat → Nat → AttemptOutcome) (now : PyDateTime)
    (st : AdjState) (g : String × List Asset) : AdjState :=
  match g.2 with
  | [a] =>
    -- single-asset group: absolute thresholds 0.7 / 0.3
    let ps := a.performance_score.getD 0
    if 0.7 < ps then
      let r := bm_update_asset_budget (env st.callIdx) now 3 a 1.2
        "Single high-performing asset - budget increased by 20%"
      { st with
        callIdx := st.callIdx + 1
        changes := st.changes ++ r.records
        increased := if r.success then st.increased + 1 else st.increased }
    else if ps < 0.3 then
      let r := bm_update_asset_budget (env st.callIdx) now 3 a 0.8
        "Single low-performing asset - budget decreased by 20%"
      { st with
        callIdx := st.callIdx + 1
        changes := st.changes ++ r.records
        decreased := if r.success then st.decreased + 1 else st.decreased }
    else
      { st with
        unchangedCount := st.unchangedCount + 1
        unchanged := st.unchanged ++
          [⟨a.filename, "Single asset with average performance - budget unchanged",
            a.file_id, a.ad_id.getD "", a.budget, a.performance_score⟩] }
  | l =>
    let pair := identify_performance_outliers l
    let middle := l.filter fun a => ¬ pair.1.contains a ∧ ¬ pair.2.contains a
    let r1 := runUpdates env now 1.2
      "Top performer - budget increased by 20%" pair.1 st.callIdx
    let r2 := runUpdates env now 0.8
      "Low performer - budget decreased by 20%" pair.2 r1.1
    { st with
      callIdx := r2.1
      increased := st.increased + r1.2.1
      decreased := st.decreased + r2.2.1
      changes := st.changes ++ r1.2.2 ++ r2.2.2
      unchangedCount := st.unchangedCount + middle.length
      unchanged := st.unchanged ++ middle.map fun a =>
        ⟨a.filename, "Average performer - budget unchanged",
         a.file_id, a.ad_id.getD "", a.budget, a.performance_score⟩ }

/-- `BudgetManager.adjust_budgets_by_performance` (lines 158-315). -/
def adjust_budgets_by_performance (env : Nat → Nat → AttemptOutcome)
    (now : PyDateTime) (assets : List Asset) : Summary :=
  let t := filterStep assets
  let groups := group_assets_by_ad t.1
  let final := groups.foldl (processGroup env now) {}
  { total_assets := assets.length
    valid_assets := t.1.length
    total_ads := groups.length
    budgets_increased := final.increased
    budgets_decreased := final.decreased
    budgets_unchanged := final.unchangedCount
    budget_changes := final.changes
    skipped_assets := t.2
    unchanged_assets := final.unchanged }

/-! ## Filename parsing (src/utils/asset_parser.py)

`AssetParser.parse_filename` applies `re.match` with the pattern

  `^([A-Z]{2}-[A-Z]{2})\s*\|\s*([A-Za-z0-9]+)\s*\|\s*(.+?)\s*\|\s*(.+?)\s*\|`
  `\s*(.+?)\s*\|\s*(.+?)\s*\|\s*(.+?)\s*\|\s*(.+)$`

to `os.path.basename(filename)`.  The pattern is embedded as a sequence of
items and matched by a backtracking engine with Python's preference order:
greedy quantifiers try the longest consumption first, lazy ones the shortest;
`.` matches anything but a newline; `\s` (and `str.strip`) use Python's
str-mode whitespace; `$` accepts the end of the string or a lone final
newline. -/

/-- Python str-pattern `\s` / `str.isspace` (the Unicode whitespace set). -/
def pyWS (c : Char) : Bool :=
  c = ' ' ∨ c = '\t' ∨ c = '\n' ∨ c = '\x0b' ∨ c = '\x0c' ∨ c = '\r'
    ∨ c = '\x1c' ∨ c = '\x1d' ∨ c = '\x1e' ∨ c = '\x1f' ∨ c = '\x85'
    ∨ c = '\xa0' ∨ c = '\u1680' ∨ ('\u2000' ≤ c ∧ c ≤ '\u200a')
    ∨ c = '\u2028' ∨ c = '\u2029' ∨ c = '\u202f' ∨ c = '\u205f' ∨ c = '\u3000'

def isUpperAZ (c : Char) : Bool := 'A' ≤ c ∧ c ≤ 'Z'

/-- The `[A-Za-z0-9]` class of the buyout-code group. -/
def isAlnumAscii (c : Char) : Bool :=
  ('A' ≤ c ∧ c ≤ 'Z') ∨ ('a' ≤ c ∧ c ≤ 'z') ∨ ('0' ≤ c ∧ c ≤ '9')

/-- The `.` class (anything but a newline; `DOTALL` is not set). -/
def isDot (c : Char) : Bool := c ≠ '\n'

/-- One item of the compiled pattern.  Every capturing group of the source
pattern is a single quantified class (or a fixed-shape run), so captures are
attached to the quantified items directly. -/
inductive RItem where
  | lit (c : Char)
  | grpFixed (ps : List (Char → Bool))
  | starWS
  | plusGreedy (p : Char → Bool)
  | plusLazy (p : Char → Bool)

/-- `$` of a non-MULTILINE Python pattern: end of string, or just before a
final newline. -/
def endOk (s : List Char) : Bool := s = [] ∨ s = ['\n']

/-- Match a fixed run of single-char classes, returning the consumed chars
and the remainder. -/
def matchFixed : List (Char → Bool) → List Char → Option (List Char × List Char)
  | [], s => some ([], s)
  | _ :: _, [] => none
  | p :: ps, c :: s =>
    if p c then (matchFixed ps s).map (fun g => (c :: g.1, g.2)) else none

/-- The backtracking matcher: given the remaining items and input, the
captured groups (in pattern order) of the first match in Python's
backtracking order, or `none`.  Quantified items enumerate consumption
lengths in preference order (greedy: longest first; lazy: shortest first)
over the maximal run of their class. -/
def mtch : List RItem → List Char → Option (List (List Char))
  | [], s => if endOk s then some [] else none
  | .lit _ :: _, [] => none
  | .lit c :: rest, x :: xs => if x = c then mtch rest xs else none
  | .grpFixed ps :: rest, s =>
    match matchFixed ps s with
    | none => none
    | some (g, r) => (mtch rest r).map (g :: ·)
  | .starWS :: rest, s =>
    (List.range' 0 ((s.takeWhile pyWS).length + 1)).reverse.findSome?
      fun k => mtch rest (s.drop k)
  | .plusGreedy p :: rest, s =>
    (List.range' 1 (s.takeWhile p).length).reverse.findSome?
      fun k => (mtch rest (s.drop k)).map (s.take k :: ·)
  | .plusLazy p :: rest, s =>
    (List.range' 1 (s.takeWhile p).length).findSome?
      fun k => (mtch rest (s.drop k)).map (s.take k :: ·)

/-- Prepend a character to the first captured group (proof helper describing
how extending a quantified group by one character acts on the match's group
list). -/
def consHead (c : Char) : List (List Char) → List (List Char)
  | [] => []
  | g :: t => (c :: g) :: t

/-- The compiled pattern of `AssetParser.__init__` (asset_parser.py line 20). -/
def filenameItems : List RItem :=
  [.grpFixed [isUpperAZ, isUpperAZ, fun c => c = '-', isUpperAZ, isUpperAZ],
   .starWS, .lit '|', .starWS, .plusGreedy isAlnumAscii,
   .starWS, .lit '|', .starWS, .plusLazy isDot,
   .starWS, .lit '|', .starWS, .plusLazy isDot,
   .starWS, .lit '|', .starWS, .plusLazy isDot,
   .starWS, .lit '|', .starWS, .plusLazy isDot,
   .starWS, .lit '|', .starWS, .plusLazy isDot,
   .starWS, .lit '|', .starWS, .plusGreedy isDot]

/-- `os.path.basename` (POSIX): everything after the last `/`. -/
def pyBasename (s : List Char) : List Char := (pySplit '/' s).getLastD []

/-- Python `str.strip()`: drop leading and trailing whitespace. -/
def pyStrip (s : List Char) : List Char :=
  ((s.dropWhile pyWS).reverse.dropWhile pyWS).reverse

/-- The dictionary returned by `parse_filename` on success
(asset_parser.py lines 52-62). -/
structure ParsedData where
  country_language : String := ""
  buyout_code : String := ""
  concept : String := ""
  audience : String := ""
  transaction_side : String := ""
  asset_format : String := ""
  duration : String := ""
  file_format : String := ""
  original_filename : String := ""
  deriving DecidableEq, Repr

/-- `AssetParser.parse_filename` (lines 22-62).  The source pattern has
exactly eight groups, so a successful match always yields eight captures;
other arities cannot occur and map to `none`. -/
def parse_filename (filename : String) : Option ParsedData :=
  let base := pyBasename filename.data
  match mtch filenameItems base with
  | some [g1, g2, g3, g4, g5, g6, g7, g8] =>
    some ⟨String.mk (pyStrip g1), String.mk (pyStrip g2), String.mk (pyStrip g3),
          String.mk (pyStrip g4), String.mk (pyStrip g5), String.mk (pyStrip g6),
          String.mk (pyStrip g7), String.mk (pyStrip g8), String.mk base⟩
  | _ => none

/-- `AssetParser.create_asset_from_parsed_data` (lines 129-158):
`country_language.split("-")[0]` / `split("-")[1]` when a hyphen is present,
else both country and language become `""`. -/
def create_asset_from_parsed_data (filename : String) (pd : ParsedData) : Asset :=
  let cl := pd.country_language.data
  let hasHyphen := cl.contains '-'
  let country :=
    if hasHyphen then String.mk ((pySplit '-' cl).headI) else ""
  let language :=
    if hasHyphen then String.mk ((pySplit '-' cl).getD 1 []) else ""
  { filename := filename
    country := country
    language := language
    buyout_code := pd.buyout_code
    concept := pd.concept
    audience := pd.audience
    transaction_side := pd.transaction_side
    asset_format := pd.asset_format
    duration := pd.duration
    file_format := pd.file_format
    is_valid_name := true }

/-! ## Theorems -/

/-- C1: for every asset, `is_valid` is true iff `is_valid_name` is true, and
(`is_buyout_valid` is true or `quality_score` is non-null and strictly
greater than 5), and `is_privacy_compliant` is non-null and true; an asset
with invalid buyout and quality score exactly 5 is invalid, while quality
score 5.0001 satisfies the quality disjunct. -/
theorem c1_is_valid_characterization :
    (∀ a : Asset, a.is_valid = true ↔
        (a.is_valid_name = true
          ∧ (a.is_buyout_valid = true ∨ ∃ q : ℚ, a.quality_score = some q ∧ 5 < q)
          ∧ a.is_privacy_compliant = some true))
    ∧ (∀ a : Asset, a.is_buyout_valid = false → a.quality_score = some 5 →
        a.is_valid = false)
    ∧ (∀ a : Asset, a.quality_score = some 5.0001 →
        a.is_buyout_valid = true ∨ ∃ q : ℚ, a.quality_score = some q ∧ 5 < q) := by
  refine ⟨fun a => ?_, fun a h2 h3 => ?_, fun a h => ?_⟩
  · cases h3 : a.quality_score <;> cases h4 : a.is_privacy_compliant <;>
      simp [Asset.is_valid, h3, h4, and_assoc]
  · simp [Asset.is_valid, h2, h3]
  · exact Or.inr ⟨5.0001, h, by norm_num⟩

/-- Witness for C1: the two conditional conjuncts at concrete assets. -/
theorem c1_is_valid_characterization_witness :
    ({ quality_score := some 5 } : Asset).is_valid = false
    ∧ (({ quality_score := some 5.0001 } : Asset).is_buyout_valid = true
        ∨ ∃ q : ℚ, ({ quality_score := some 5.0001 } : Asset).quality_score = some q ∧ 5 < q) :=
  ⟨c1_is_valid_characterization.2.1 _ rfl rfl,
   c1_is_valid_characterization.2.2 _ rfl⟩

/-- C2 counterexample: the claim says `click_through_rate` is null exactly
when `impressions` is absent or 0 or `clicks` is absent.  An asset with
`impressions = -1` and `clicks = 1` has present, non-zero impressions and
present clicks, yet its CTR is null (the source requires `impressions > 0`,
not merely non-zero); symmetrically for `conversion_rate` with
`clicks = -1`. -/
theorem c2_counterexample :
    (({ impressions := some (-1), clicks := some 1 } : Asset).click_through_rate = none
      ∧ ¬(({ impressions := some (-1), clicks := some 1 } : Asset).impressions = none
          ∨ ({ impressions := some (-1), clicks := some 1 } : Asset).impressions = some 0
          ∨ ({ impressions := some (-1), clicks := some 1 } : Asset).clicks = none))
    ∧ (({ clicks := some (-1), conversions := some 1 } : Asset).conversion_rate = none
      ∧ ¬(({ clicks := some (-1), conversions := some 1 } : Asset).clicks = none
          ∨ ({ clicks := some (-1), conversions := some 1 } : Asset).clicks = some 0
          ∨ ({ clicks := some (-1), conversions := some 1 } : Asset).conversions = none)) := by
  refine ⟨⟨?_, by decide⟩, ⟨?_, by decide⟩⟩ <;> decide

/-- C2 (amended): `click_through_rate` is null exactly when `impressions` is
absent or not strictly positive or `clicks` is absent, and symmetrically
`conversion_rate` is null exactly when `clicks` is absent or not strictly
positive or `conversions` is absent; otherwise they equal
`clicks/impressions` resp. `conversions/clicks`; and `performance_score` is
never null: it is 0.4 times the CTR plus 0.6 times the CVR, a null rate
counting as 0. -/
theorem c2_rates_and_score (a : Asset) :
    (a.click_through_rate = none ↔
      (a.impressions = none ∨ (∃ i : Int, a.impressions = some i ∧ i ≤ 0)
        ∨ a.clicks = none))
    ∧ (a.conversion_rate = none ↔
      (a.clicks = none ∨ (∃ n : Int, a.clicks = some n ∧ n ≤ 0)
        ∨ a.conversions = none))
    ∧ (∀ i c : Int, a.impressions = some i → 0 < i → a.clicks = some c →
        a.click_through_rate = some ((c : ℚ) / (i : ℚ)))
    ∧ (∀ n v : Int, a.clicks = some n → 0 < n → a.conversions = some v →
        a.conversion_rate = some ((v : ℚ) / (n : ℚ)))
    ∧ a.performance_score =
        some (a.click_through_rate.getD 0 * 0.4 + a.conversion_rate.getD 0 * 0.6) := by
  refine ⟨?_, ?_, ?_, ?_, rfl⟩
  · cases hi : a.impressions with
    | none => simp [Asset.click_through_rate, optIntTruthy, hi]
    | some i =>
      cases hc : a.clicks with
      | none => simp [Asset.click_through_rate, optIntTruthy, hi, hc]
      | some c =>
        simp only [Asset.click_through_rate, optIntTruthy, hi, hc, Option.getD_some,
          Option.isSome_some, Bool.and_true]
        constructor
        · intro h
          by_cases hpos : 0 < i
          · simp [hpos, show (i : Int) ≠ 0 by omega] at h
          · exact Or.inr (Or.inl ⟨i, rfl, by omega⟩)
        · rintro (h | ⟨j, hj, hle⟩ | h)
          · exact absurd h (by simp)
          · obtain rfl : i = j := by simpa using hj
            simp [show ¬ (0 : Int) < i by omega]
          · exact absurd h (by simp)
  · cases hn : a.clicks with
    | none => simp [Asset.conversion_rate, optIntTruthy, hn]
    | some n =>
      cases hv : a.conversions with
      | none => simp [Asset.conversion_rate, optIntTruthy, hn, hv]
      | some v =>
        simp only [Asset.conversion_rate, optIntTruthy, hn, hv, Option.getD_some,
          Option.isSome_some, Bool.and_true]
        constructor
        · intro h
          by_cases hpos : 0 < n
          · simp [hpos, show (n : Int) ≠ 0 by omega] at h
          · exact Or.inr (Or.inl ⟨n, rfl, by omega⟩)
        · rintro (h | ⟨j, hj, hle⟩ | h)
          · exact absurd h (by simp)
          · obtain rfl : n = j := by simpa using hj
            simp [show ¬ (0 : Int) < n by omega]
          · exact absurd h (by simp)
  · intro i c hi hpos hc
    simp [Asset.click_through_rate, optIntTruthy, hi, hc, hpos, show (i : Int) ≠ 0 by omega]
  · intro n v hn hpos hv
    simp [Asset.conversion_rate, optIntTruthy, hn, hv, hpos, show (n : Int) ≠ 0 by omega]

/-- Witness for C2 (amended): a concrete asset with defined rates. -/
theorem c2_rates_and_score_witness :
    ({ impressions := some 2, clicks := some 1, conversions := some 1 } : Asset).click_through_rate
        = some (((1 : Int) : ℚ) / ((2 : Int) : ℚ))
    ∧ ({ impressions := some 2, clicks := some 1, conversions := some 1 } : Asset).conversion_rate
        = some (((1 : Int) : ℚ) / ((1 : Int) : ℚ)) :=
  ⟨(c2_rates_and_score _).2.2.1 2 1 rfl (by norm_num) rfl,
   (c2_rates_and_score _).2.2.2.1 1 1 rfl (by norm_num) rfl⟩

/-- C3: in `validate_asset`, whenever buyout validation fails the asset's
budget is 0 in the returned local state, and whenever it passes the budget is
untouched — for every ads-endpoint oracle, so in particular regardless of
whether the best-effort push of the zero budget succeeds, exhausts its
retries, or fails immediately for missing `ad_id`/`file_id`. -/
theorem c3_budget_zeroed_unconditionally (env : ValidationEnv)
    (table : List (String × String)) (a : Asset) :
    (validate_asset env table a).budget =
      (if (validate_asset env table a).is_buyout_valid then a.budget else 0) := by
  unfold validate_asset
  cases hb : validate_buyout_code env.now table { a with is_valid_name := validate_asset_name a } <;>
    simp [hb]

/-- The retry loop of `BudgetManager.update_asset_budget` either succeeds —
mutating the asset via `Asset.update_budget` and appending exactly one change
record — or fails leaving the asset untouched and appending nothing. -/
theorem bmUpdateLoop_spec (attempts : Nat → AttemptOutcome) (now : PyDateTime)
    (a : Asset) (nb : Int) (factor : ℚ) (reason : String) :
    ∀ n i,
      (bmUpdateLoop attempts now a nb factor reason i n
          = ⟨true, a.update_budget nb reason now,
              [⟨a.filename, a.ad_id, some a.budget, nb, factor, reason, now⟩],
              (bmUpdateLoop attempts now a nb factor reason i n).callsMade⟩)
      ∨ (bmUpdateLoop attempts now a nb factor reason i n
          = ⟨false, a, [], (bmUpdateLoop attempts now a nb factor reason i n).callsMade⟩) := by
  intro n
  induction n with
  | zero => intro i; exact Or.inr rfl
  | succ m ih =>
    intro i
    cases h : attempts i with
    | ok =>
      left
      simp [bmUpdateLoop, h, Asset.update_budget]
    | err =>
      by_cases hm : m = 0
      · subst hm; right; simp [bmUpdateLoop, h]
      · have := ih (i + 1)
        simpa [bmUpdateLoop, h, hm] using this
    | exn =>
      by_cases hm : m = 0
      · subst hm; right; simp [bmUpdateLoop, h]
      · have := ih (i + 1)
        simpa [bmUpdateLoop, h, hm] using this

/-- If no attempt in the window answers success, the retry loop fails. -/
theorem bmUpdateLoop_fail (attempts : Nat → AttemptOutcome) (now : PyDateTime)
    (a : Asset) (nb : Int) (factor : ℚ) (reason : String) :
    ∀ n i, (∀ j, i ≤ j → j < i + n → attempts j ≠ .ok) →
      (bmUpdateLoop attempts now a nb factor reason i n).success = false := by
  intro n
  induction n with
  | zero => intro i _; rfl
  | succ m ih =>
    intro i hno
    cases h : attempts i with
    | ok => exact absurd h (hno i le_rfl (by omega))
    | err =>
      by_cases hm : m = 0
      · subst hm; simp [bmUpdateLoop, h]
      · have := ih (i + 1) fun j h1 h2 => hno j (by omega) (by omega)
        simpa [bmUpdateLoop, h, hm] using this
    | exn =>
      by_cases hm : m = 0
      · subst hm; simp [bmUpdateLoop, h]
      · have := ih (i + 1) fun j h1 h2 => hno j (by omega) (by omega)
        simpa [bmUpdateLoop, h, hm] using this

/-- C4: a `BudgetManager.update_asset_budget` call whose three external
attempts all yield an error response or an exception — or whose asset lacks a
truthy `ad_id` or `file_id`, which fails immediately with no external call —
returns false, leaves `budget`, `previous_budget`, `budget_updated_at` and
`budget_update_reason` unchanged, and appends no change record. -/
theorem c4_retry_exhaustion_no_mutation (attempts : Nat → AttemptOutcome)
    (now : PyDateTime) (a : Asset) (factor : ℚ) (reason : String)
    (h : optStrTruthy a.ad_id = false ∨ optStrTruthy a.file_id = false
        ∨ ∀ i, i < 3 → attempts i ≠ .ok) :
    (bm_update_asset_budget attempts now 3 a factor reason).success = false
    ∧ (bm_update_asset_budget attempts now 3 a factor reason).asset = a
    ∧ (bm_update_asset_budget attempts now 3 a factor reason).records = []
    ∧ (optStrTruthy a.ad_id = false ∨ optStrTruthy a.file_id = false →
        (bm_update_asset_budget attempts now 3 a factor reason).callsMade = 0) := by
  by_cases hid : ¬ optStrTruthy a.ad_id ∨ ¬ optStrTruthy a.file_id
  · unfold bm_update_asset_budget
    rw [if_pos hid]
    exact ⟨rfl, rfl, rfl, fun _ => rfl⟩
  · have hids : optStrTruthy a.ad_id = true ∧ optStrTruthy a.file_id = true := by
      revert hid
      cases optStrTruthy a.ad_id <;> cases optStrTruthy a.file_id <;> simp
    have hno : ∀ i, i < 3 → attempts i ≠ .ok := by
      rcases h with h | h | h
      · rw [hids.1] at h; cases h
      · rw [hids.2] at h; cases h
      · exact h
    have hfail := bmUpdateLoop_fail attempts now a
      (pyInt ((a.budget : ℚ) * factor)) factor reason 3 0
      (fun j h1 h2 => hno j (by omega))
    have hspec := bmUpdateLoop_spec attempts now a
      (pyInt ((a.budget : ℚ) * factor)) factor reason 3 0
    rcases hspec with hs | hs
    · rw [hs] at hfail; cases hfail
    · unfold bm_update_asset_budget
      rw [if_neg hid]
      refine ⟨hfail, ?_, ?_, ?_⟩
      · rw [hs]
      · rw [hs]
      · intro hx
        rcases hx with hx | hx
        · exact absurd (Or.inl (by simp [hx])) hid
        · exact absurd (Or.inr (by simp [hx])) hid

/-- Witness for C4: all three attempts error on a fully-identified asset. -/
theorem c4_retry_exhaustion_no_mutation_witness :
    (bm_update_asset_budget (fun _ => .err) ⟨2025, 1, 1, 0, 0, 0, 0⟩ 3
        { ad_id := some "ad", file_id := some "f", budget := 100 } 1.2 "r").success = false
    ∧ (bm_update_asset_budget (fun _ => .err) ⟨2025, 1, 1, 0, 0, 0, 0⟩ 3
        { ad_id := some "ad", file_id := some "f", budget := 100 } 1.2 "r").asset
        = { ad_id := some "ad", file_id := some "f", budget := 100 }
    ∧ (bm_update_asset_budget (fun _ => .err) ⟨2025, 1, 1, 0, 0, 0, 0⟩ 3
        { ad_id := some "ad", file_id := some "f", budget := 100 } 1.2 "r").records = [] :=
  have h := c4_retry_exhaustion_no_mutation (fun _ => .err) ⟨2025, 1, 1, 0, 0, 0, 0⟩
    { ad_id := some "ad", file_id := some "f", budget := 100 } 1.2 "r"
    (Or.inr (Or.inr fun i _ => by simp))
  ⟨h.1, h.2.1, h.2.2.1⟩

/-- `int(q)` of an integer is that integer. -/
theorem pyInt_intCast (n : Int) : pyInt (n : ℚ) = n := by
  simp [pyInt, Rat.num_intCast, Rat.den_intCast]

/-- C9: `update_asset_budget` with factor 1.0 on an asset with truthy ids and
non-negative budget, when the external call succeeds, sets the new budget
equal to the previous budget and still appends exactly one change record
whose new and previous budgets agree — the mutation path does not
special-case no-op factors. -/
theorem c9_factor_one_idempotent (attempts : Nat → AttemptOutcome)
    (now : PyDateTime) (a : Asset) (reason : String)
    (h1 : optStrTruthy a.ad_id = true) (h2 : optStrTruthy a.file_id = true)
    (h3 : 0 ≤ a.budget)
    (hs : (bm_update_asset_budget attempts now 3 a 1 reason).success = true) :
    (bm_update_asset_budget attempts now 3 a 1 reason).asset.previous_budget
        = some (bm_update_asset_budget attempts now 3 a 1 reason).asset.budget
    ∧ ∃ rec, (bm_update_asset_budget attempts now 3 a 1 reason).records = [rec]
        ∧ rec.previous_budget = some rec.new_budget := by
  have hid : ¬ (¬ optStrTruthy a.ad_id ∨ ¬ optStrTruthy a.file_id) := by
    simp [h1, h2]
  have hnb : pyInt ((a.budget : ℚ) * 1) = a.budget := by
    rw [mul_one, pyInt_intCast]
  have hspec := bmUpdateLoop_spec attempts now a
    (pyInt ((a.budget : ℚ) * 1)) 1 reason 3 0
  simp only [bm_update_asset_budget, if_neg hid] at hs ⊢
  rcases hspec with hspec | hspec
  · rw [hspec]
    refine ⟨?_, ⟨_, rfl, ?_⟩⟩ <;> simp [Asset.update_budget, pyInt_intCast]
  · rw [hspec] at hs; cases hs

/-- Witness for C9: a first-attempt success with factor 1. -/
theorem c9_factor_one_idempotent_witness :
    (bm_update_asset_budget (fun _ => .ok) ⟨2025, 1, 1, 0, 0, 0, 0⟩ 3
        { ad_id := some "ad", file_id := some "f", budget := 100 } 1 "r").asset.previous_budget
      = some (bm_update_asset_budget (fun _ => .ok) ⟨2025, 1, 1, 0, 0, 0, 0⟩ 3
        { ad_id := some "ad", file_id := some "f", budget := 100 } 1 "r").asset.budget
    ∧ ∃ rec, (bm_update_asset_budget (fun _ => .ok) ⟨2025, 1, 1, 0, 0, 0, 0⟩ 3
        { ad_id := some "ad", file_id := some "f", budget := 100 } 1 "r").records = [rec]
        ∧ rec.previous_budget = some rec.new_budget :=
  c9_factor_one_idempotent (fun _ => .ok) ⟨2025, 1, 1, 0, 0, 0, 0⟩
    { ad_id := some "ad", file_id := some "f", budget := 100 } "r"
    rfl rfl (by norm_num) (by decide)

/-- Each `update_asset_budget` call appends exactly one change record when it
returns true and none when it returns false. -/
theorem bm_update_records_length (attempts : Nat → AttemptOutcome)
    (now : PyDateTime) (n : Nat) (a : Asset) (factor : ℚ) (reason : String) :
    (bm_update_asset_budget attempts now n a factor reason).records.length
      = (if (bm_update_asset_budget attempts now n a factor reason).success
          then 1 else 0) := by
  unfold bm_update_asset_budget
  split
  · rfl
  · rcases bmUpdateLoop_spec attempts now a (pyInt ((a.budget : ℚ) * factor))
      factor reason n 0 with hs | hs <;> rw [hs] <;> simp

/-- In the top/low update loops, the number of appended records equals the
number of confirmed successes. -/
theorem runUpdates_records_length (env : Nat → Nat → AttemptOutcome)
    (now : PyDateTime) (factor : ℚ) (reason : String) :
    ∀ (l : List Asset) (k : Nat),
      (runUpdates env now factor reason l k).2.2.length
        = (runUpdates env now factor reason l k).2.1 := by
  intro l
  induction l with
  | nil => intro k; rfl
  | cons a rest ih =>
    intro k
    simp only [runUpdates, List.length_append, ih (k + 1),
      bm_update_records_length]

/-- The per-group loop body preserves "increased + decreased = number of
change records". -/
theorem processGroup_preserves (env : Nat → Nat → AttemptOutcome)
    (now : PyDateTime) (st : AdjState) (g : String × List Asset)
    (hinv : st.increased + st.decreased = st.changes.length) :
    (processGroup env now st g).increased + (processGroup env now st g).decreased
      = (processGroup env now st g).changes.length := by
  rcases g with ⟨k, l⟩
  match l with
  | [a] =>
    simp only [processGroup]
    split
    · have hr := bm_update_records_length (env st.callIdx) now 3 a 1.2
        "Single high-performing asset - budget increased by 20%"
      split at hr <;> simp_all <;> omega
    · split
      · have hr := bm_update_records_length (env st.callIdx) now 3 a 0.8
          "Single low-performing asset - budget decreased by 20%"
        split at hr <;> simp_all <;> omega
      · simpa using hinv
  | [] =>
    have h1 := runUpdates_records_length env now 1.2
      "Top performer - budget increased by 20%"
      (identify_performance_outliers []).1 st.callIdx
    have h2 := runUpdates_records_length env now 0.8
      "Low performer - budget decreased by 20%"
      (identify_performance_outliers []).2
      (runUpdates env now 1.2 "Top performer - budget increased by 20%"
        (identify_performance_outliers []).1 st.callIdx).1
    simp only [processGroup, List.length_append]
    omega
  | a :: b :: rest =>
    have h1 := runUpdates_records_length env now 1.2
      "Top performer - budget increased by 20%"
      (identify_performance_outliers (a :: b :: rest)).1 st.callIdx
    have h2 := runUpdates_records_length env now 0.8
      "Low performer - budget decreased by 20%"
      (identify_performance_outliers (a :: b :: rest)).2
      (runUpdates env now 1.2 "Top performer - budget increased by 20%"
        (identify_performance_outliers (a :: b :: rest)).1 st.callIdx).1
    simp only [processGroup, List.length_append]
    omega

/-- C10: in the summary of `adjust_budgets_by_performance`,
`budgets_increased + budgets_decreased` equals the length of the
`budget_changes` list: every confirmed update appends exactly one change
record and increments exactly one of the two counters, and nothing else
touches either. -/
theorem c10_counters_match_changes (env : Nat → Nat → AttemptOutcome)
    (now : PyDateTime) (assets : List Asset) :
    (adjust_budgets_by_performance env now assets).budgets_increased
      + (adjust_budgets_by_performance env now assets).budgets_decreased
      = (adjust_budgets_by_performance env now assets).budget_changes.length := by
  unfold adjust_budgets_by_performance
  suffices h : ∀ (gs : List (String × List Asset)) (st : AdjState),
      st.increased + st.decreased = st.changes.length →
      (gs.foldl (processGroup env now) st).increased
        + (gs.foldl (processGroup env now) st).decreased
        = (gs.foldl (processGroup env now) st).changes.length by
    exact h (group_assets_by_ad (filterStep assets).1) {} rfl
  intro gs
  induction gs with
  | nil => intro st hst; exact hst
  | cons g rest ih =>
    intro st hst
    exact ih (processGroup env now st g) (processGroup_preserves env now st g hst)

/-- `performance_score` never returns `None`, so the scored list inside
`identify_performance_outliers` is the input paired with its score. -/
theorem scored_eq_map (assets : List Asset) :
    (assets.filterMap fun a => a.performance_score.map fun s => (a, s))
      = assets.map fun a => (a, psVal a) := by
  have h : (fun a : Asset => a.performance_score.map fun s => (a, s))
      = some ∘ fun a => (a, psVal a) := funext fun a => rfl
  rw [h, List.filterMap_eq_map]

/-- For a group of at least two distinct assets, the top-performer and
low-performer selections of `identify_performance_outliers` never share an
asset: the selection size `max 1 (total / 4)` always satisfies
`2 * max 1 (total / 4) ≤ total`. -/
theorem identify_no_overlap (assets : List Asset) (hnd : assets.Nodup)
    (h2 : 2 ≤ assets.length) :
    ∀ x, x ∈ (identify_performance_outliers assets).1 →
      x ∉ (identify_performance_outliers assets).2 := by
  intro x hx hy
  have hne : ¬ assets = [] := by rintro rfl; simp at h2
  have hmapne : ¬ (assets.map fun a => (a, psVal a)) = [] := by
    simp [hne]
  simp only [identify_performance_outliers, scored_eq_map, if_neg hne,
    if_neg hmapne] at hx hy
  obtain ⟨p, hp_mem, hp_fst⟩ := List.mem_map.mp hx
  obtain ⟨q, hq_mem, hq_fst⟩ := List.mem_map.mp hy
  have hperm := List.perm_insertionSort
    (fun p q : Asset × ℚ => q.2 ≤ p.2) (assets.map fun a => (a, psVal a))
  have hinj : Function.Injective fun a : Asset => (a, psVal a) :=
    fun a b h => congrArg Prod.fst h
  have hnodup :
      ((assets.map fun a => (a, psVal a)).insertionSort
        fun p q : Asset × ℚ => q.2 ≤ p.2).Nodup :=
    hperm.nodup_iff.mpr (hnd.map hinj)
  have hlen :
      ((assets.map fun a => (a, psVal a)).insertionSort
        fun p q : Asset × ℚ => q.2 ≤ p.2).length = assets.length := by
    rw [hperm.length_eq, List.length_map]
  obtain ⟨ap, hap, rfl⟩ := List.mem_map.mp (hperm.mem_iff.mp (List.mem_of_mem_take hp_mem))
  obtain ⟨aq, haq, rfl⟩ := List.mem_map.mp (hperm.mem_iff.mp (List.mem_of_mem_drop hq_mem))
  cases hp_fst
  cases hq_fst
  have harith :
      max 1 (((assets.map fun a => (a, psVal a)).insertionSort
          fun p q : Asset × ℚ => q.2 ≤ p.2).length / 4)
        ≤ ((assets.map fun a => (a, psVal a)).insertionSort
            fun p q : Asset × ℚ => q.2 ≤ p.2).length
          - max 1 (((assets.map fun a => (a, psVal a)).insertionSort
              fun p q : Asset × ℚ => q.2 ≤ p.2).length / 4) := by
    rw [hlen]
    omega
  exact List.disjoint_take_drop hnodup harith hp_mem hq_mem

/-- C8 counterexample: the claim asserts that for some multi-asset ad group
the `max(1, n//4)` top and low selections overlap.  They never do: for every
group of at least two distinct assets the two selections are disjoint, so no
such group exists. -/
theorem c8_counterexample :
    ¬ ∃ assets : List Asset, 2 ≤ assets.length ∧ assets.Nodup ∧
        ∃ x, x ∈ (identify_performance_outliers assets).1
          ∧ x ∈ (identify_performance_outliers assets).2 := by
  rintro ⟨l, h2, hnd, x, ht, hl⟩
  exact identify_no_overlap l hnd h2 x ht hl

/-- C8 (amended): for every multi-asset ad group (two or more distinct assets
sharing an `ad_id`), the top-performer selection and the low-performer
selection of `max 1 (n / 4)` assets each are disjoint — the same asset is
never selected both for the 1.2 increase and the 0.8 decrease; the overlap
scenario described in the claim cannot occur. -/
theorem c8_no_double_selection (assets : List Asset) (hnd : assets.Nodup)
    (h2 : 2 ≤ assets.length) :
    ∀ x, x ∈ (identify_performance_outliers assets).1 →
      x ∉ (identify_performance_outliers assets).2 :=
  identify_no_overlap assets hnd h2

/-- Witness for C8 (amended): in a concrete two-asset group the sole top
performer is not among the low performers. -/
theorem c8_no_double_selection_witness :
    ({ filename := "a" } : Asset) ∉ (identify_performance_outliers
        [{ filename := "a" }, { filename := "b" }]).2 := by
  have hmem : ({ filename := "a" } : Asset) ∈ (identify_performance_outliers
      [{ filename := "a" }, { filename := "b" }]).1 := by
    simp [identify_performance_outliers, List.insertionSort, List.orderedInsert,
      Asset.performance_score, Asset.click_through_rate, Asset.conversion_rate,
      optIntTruthy]
  exact c8_no_double_selection [{ filename := "a" }, { filename := "b" }]
    (by decide) (by decide) _ hmem

/-- C5: buyout validation tries the date formats day/month/year,
month/day/year, year-month-day, year/month/day in that fixed order with the
first parsing format winning — so `03/04/2024` is read as April 3rd
(day/month/year) and `31/12/2099` is a valid future expiry even though it
parses under no other format (month 31) — and it fails exactly when the
buyout code is empty, absent from the expiry table, the table value parses
under none of the four formats (including the empty string), or the current
time is strictly after the parsed expiry instant. -/
theorem c5_buyout_validation :
    parseExpiry "03/04/2024".data = some ⟨2024, 4, 3⟩
    ∧ parseExpiry "31/12/2099".data = some ⟨2099, 12, 31⟩
    ∧ parseMDY "31/12/2099".data = none
    ∧ (∀ (s : List Char) (d : PyDate), parseDMY s = some d → parseExpiry s = some d)
    ∧ validate_buyout_code ⟨2026, 10, 12, 10, 30, 0, 0⟩ [("BUY1", "31/12/2099")]
        { buyout_code := "BUY1" } = true
    ∧ (∀ (now : PyDateTime) (table : List (String × String)) (a : Asset),
        validate_buyout_code now table a = false ↔
          (a.buyout_code = "" ∨ table.lookup a.buyout_code = none
            ∨ (∃ s, table.lookup a.buyout_code = some s ∧ parseExpiry s.data = none)
            ∨ (∃ s d, table.lookup a.buyout_code = some s ∧ parseExpiry s.data = some d
                ∧ now.gtB d.toDateTime = true))) := by
  refine ⟨by decide, by decide, by decide, ?_, by decide, ?_⟩
  · intro s d h
    simp [parseExpiry, h]
  · intro now table a
    unfold validate_buyout_code
    by_cases hc : a.buyout_code = ""
    · simp [hc]
    · rw [if_neg hc]
      cases hl : table.lookup a.buyout_code with
      | none => simp [hc, hl]
      | some s =>
        by_cases hs : s = ""
        · subst hs
          have hpe : parseExpiry ("" : String).data = none := by decide
          simp [hc, hpe]
        · cases hp : parseExpiry s.data with
          | none => simp [hc, hs, hp]
          | some d =>
            cases hg : now.gtB d.toDateTime <;> simp [hc, hs, hp, hg]

/-- Witness for C5: the format-priority conjunct at a concrete date. -/
theorem c5_buyout_validation_witness :
    parseExpiry "05/06/2030".data = some ⟨2030, 6, 5⟩ :=
  c5_buyout_validation.2.2.2.1 "05/06/2030".data ⟨2030, 6, 5⟩ (by decide)

theorem pySplit_ne_nil (sep : Char) : ∀ l : List Char, pySplit sep l ≠ []
  | [] => by simp [pySplit]
  | c :: cs => by
    by_cases h : c = sep
    · simp [pySplit, h]
    · cases hcs : pySplit sep cs with
      | nil => exact absurd hcs (pySplit_ne_nil sep cs)
      | cons p ps => simp [pySplit, h, hcs]

/-- The first piece of a Python `split` is the run before the first
separator. -/
theorem pySplit_headI (sep : Char) : ∀ l : List Char,
    (pySplit sep l).headI = l.takeWhile fun c => c ≠ sep
  | [] => rfl
  | c :: cs => by
    by_cases h : c = sep
    · simp [pySplit, h, List.takeWhile_cons]
    · cases hcs : pySplit sep cs with
      | nil => exact absurd hcs (pySplit_ne_nil sep cs)
      | cons p ps =>
        have ih := pySplit_headI sep cs
        rw [hcs] at ih
        simp only [List.headI] at ih
        simp [pySplit, h, hcs, List.takeWhile_cons, ih]

/-- Splitting a list that starts with a separator-free prefix. -/
theorem pySplit_append (sep : Char) : ∀ (pre rest : List Char),
    pre.all (fun c => c ≠ sep) = true →
    pySplit sep (pre ++ sep :: rest) = pre :: pySplit sep rest
  | [], rest, _ => by simp [pySplit]
  | c :: pre', rest, h => by
    rw [List.all_cons] at h
    have hc : ¬ c = sep := by simpa using (Bool.and_eq_true _ _ |>.mp h).1
    have ih := pySplit_append sep pre' rest (Bool.and_eq_true _ _ |>.mp h).2
    have ih2 : pySplit sep (List.append pre' (sep :: rest)) = pre' :: pySplit sep rest := ih
    simp only [List.cons_append, pySplit, if_neg hc, ih, ih2]

/-- C7 counterexample: the claim says `language` becomes all the text after
the first hyphen.  For `country_language = "AA-BB-CC"` the source's
`split("-")[1]` yields `"BB"`, while the text after the first hyphen is
`"BB-CC"`. -/
theorem c7_counterexample :
    (create_asset_from_parsed_data "f.jpg"
        { country_language := "AA-BB-CC" }).language = "BB"
    ∧ ("AA-BB-CC".data.dropWhile fun c => c ≠ '-').tail = "BB-CC".data
    ∧ ("BB" : String) ≠ "BB-CC" := by
  refine ⟨by decide, by decide, by decide⟩

/-- C7 (amended): when an Asset is constructed from parsed data,
`country_language` is split on hyphens: `country` is the text before the
first hyphen and `language` is the text between the first and the second
hyphen (all the text after the first hyphen when no second hyphen exists);
if `country_language` contains no hyphen, both become empty strings. -/
theorem c7_split_on_hyphen (filename : String) (pd : ParsedData) :
    (∀ pre rest : List Char, pd.country_language.data = pre ++ '-' :: rest →
        pre.all (fun c => c ≠ '-') = true →
        (create_asset_from_parsed_data filename pd).country = String.mk pre
          ∧ (create_asset_from_parsed_data filename pd).language
              = String.mk (rest.takeWhile fun c => c ≠ '-'))
    ∧ (pd.country_language.data.contains '-' = false →
        (create_asset_from_parsed_data filename pd).country = ""
          ∧ (create_asset_from_parsed_data filename pd).language = "") := by
  constructor
  · intro pre rest hdec hall
    have hcontains : (pre ++ '-' :: rest).contains '-' = true := by
      simp
    have hsplit := pySplit_append '-' pre rest hall
    have hne := pySplit_ne_nil '-' rest
    have hhead : (pySplit '-' rest)[0]?.getD [] = (pySplit '-' rest).headI := by
      cases hr : pySplit '-' rest with
      | nil => exact absurd hr hne
      | cons p ps => simp [List.headI]
    simp only [create_asset_from_parsed_data, hdec, hcontains, if_true, hsplit]
    constructor
    · simp
    · simp only [List.getD_eq_getElem?_getD, List.getElem?_cons_succ,
        List.getElem?_cons_zero]
      rw [show ((pySplit '-' rest)[0]? : Option (List Char)).getD []
            = (pySplit '-' rest)[0]?.getD [] from rfl]
      rw [hhead, pySplit_headI]
  · intro hnc
    simp only [create_asset_from_parsed_data, hnc]
    simp

/-- Witness for C7 (amended): the nominal `"US-EN"` case. -/
theorem c7_split_on_hyphen_witness :
    (create_asset_from_parsed_data "x" { country_language := "US-EN" }).country = "US"
    ∧ (create_asset_from_parsed_data "x" { country_language := "US-EN" }).language = "EN" := by
  have h := (c7_split_on_hyphen "x" { country_language := "US-EN" }).1
    ['U', 'S'] ['E', 'N'] (by decide) (by decide)
  exact ⟨h.1.trans (by decide), h.2.trans (by decide)⟩

/-! ### Matching-engine lemmas for the filename pattern -/

theorem range'_shift : ∀ (n s : Nat),
    List.range' (s + 1) n = (List.range' s n).map (· + 1)
  | 0, _ => rfl
  | n + 1, s => by
    rw [List.range'_succ, List.range'_succ, List.map_cons, range'_shift n (s + 1)]

theorem range'_one_eq (n : Nat) :
    List.range' 1 n = (List.range' 0 n).map (· + 1) := range'_shift n 0

theorem range'_two_eq (n : Nat) :
    List.range' 2 n = (List.range' 1 n).map (· + 1) := range'_shift n 1

theorem findSome?_cons_or {α : Type} (f : Nat → Option α) (a : Nat) (l : List Nat) :
    (a :: l).findSome? f = (f a).or (l.findSome? f) := by
  rw [List.findSome?_cons]
  cases f a <;> simp

theorem findSome?_singleton {α : Type} (f : Nat → Option α) (k : Nat) :
    [k].findSome? f = f k := by
  rw [findSome?_cons_or, List.findSome?_nil, Option.or_none]

theorem findSome?_option_map {α β : Type} (h : α → β) :
    ∀ (L : List Nat) (f : Nat → Option α),
      (L.findSome? fun k => (f k).map h) = (L.findSome? f).map h
  | [], _ => rfl
  | a :: L, f => by
    rw [findSome?_cons_or, findSome?_cons_or, findSome?_option_map h L f]
    cases f a <;> simp

/-- ASCII alphanumerics are not Python whitespace. -/
theorem alnum_not_pyWS (c : Char) (h : isAlnumAscii c = true) : pyWS c = false := by
  simp only [isAlnumAscii, Bool.or_eq_true, decide_eq_true_eq, Bool.and_eq_true] at h
  by_contra hws
  rw [Bool.not_eq_false] at hws
  simp only [pyWS, Bool.or_eq_true, decide_eq_true_eq, Bool.and_eq_true] at hws
  rcases hws with rfl|rfl|rfl|rfl|rfl|rfl|rfl|rfl|rfl|rfl|rfl|rfl|rfl|hq|rfl|rfl|rfl|rfl|rfl <;>
    rcases h with ⟨h1, h2⟩ | ⟨h1, h2⟩ | ⟨h1, h2⟩ <;>
    first
      | (revert h1 h2; decide)
      | exact absurd (le_trans hq.1 h2) (by decide)

theorem pyWS_not_alnum (c : Char) (h : pyWS c = true) : isAlnumAscii c = false := by
  cases ha : isAlnumAscii c
  · rfl
  · rw [alnum_not_pyWS c ha] at h
    cases h

theorem upper_alnum (c : Char) (h : isUpperAZ c = true) : isAlnumAscii c = true := by
  simp only [isUpperAZ, decide_eq_true_eq, Bool.and_eq_true] at h
  simp only [isAlnumAscii, Bool.or_eq_true, decide_eq_true_eq, Bool.and_eq_true]
  exact Or.inl h

theorem pyWS_ne_bar (c : Char) (h : pyWS c = true) : c ≠ '|' := by
  rintro rfl
  revert h
  decide

theorem pyWS_ne_slash (c : Char) (h : pyWS c = true) : c ≠ '/' := by
  rintro rfl
  revert h
  decide

/-! The enumeration of consumption lengths in `mtch` satisfies the following
recursive unfolding equations, which mirror the depth-first backtracking
order of Python's engine (greedy: longest first; lazy: shortest first). -/

theorem mtch_star_nil (rest : List RItem) :
    mtch (.starWS :: rest) [] = mtch rest [] := by
  simp only [mtch, List.takeWhile_nil, List.length_nil, List.range'_succ,
    List.range'_zero, List.reverse_cons, List.reverse_nil, List.nil_append]
  rw [findSome?_singleton]
  rfl

theorem mtch_star_cons_not (c : Char) (s : List Char) (rest : List RItem)
    (hc : pyWS c = false) :
    mtch (.starWS :: rest) (c :: s) = mtch rest (c :: s) := by
  simp only [mtch, List.takeWhile_cons, hc]
  simp only [Bool.false_eq_true, if_false, List.length_nil, List.range'_succ,
    List.range'_zero, List.reverse_cons, List.reverse_nil, List.nil_append]
  rw [findSome?_singleton]
  rfl

theorem mtch_star_cons_ws (c : Char) (s : List Char) (rest : List RItem)
    (hc : pyWS c = true) :
    mtch (.starWS :: rest) (c :: s)
      = (mtch (.starWS :: rest) s).or (mtch rest (c :: s)) := by
  conv_lhs => simp only [mtch]
  conv_rhs => simp only [mtch]
  have hrun : (c :: s).takeWhile pyWS = c :: s.takeWhile pyWS := by
    simp [List.takeWhile_cons, hc]
  rw [hrun, List.length_cons]
  rw [show (s.takeWhile pyWS).length + 1 + 1 = (s.takeWhile pyWS).length + 2 from rfl]
  rw [List.range'_succ, List.reverse_cons, List.findSome?_append]
  rw [show (0 : Nat) + 1 = 1 from rfl, range'_one_eq, List.reverse_map,
    List.findSome?_map, findSome?_singleton]
  rfl

theorem mtch_lazy_nil (p : Char → Bool) (rest : List RItem) :
    mtch (.plusLazy p :: rest) [] = none := by
  simp [mtch]

theorem mtch_lazy_cons_not (p : Char → Bool) (c : Char) (s : List Char)
    (rest : List RItem) (hc : p c = false) :
    mtch (.plusLazy p :: rest) (c :: s) = none := by
  simp [mtch, List.takeWhile_cons, hc]

theorem mtch_lazy_cons (p : Char → Bool) (c : Char) (s : List Char)
    (rest : List RItem) (hc : p c = true) :
    mtch (.plusLazy p :: rest) (c :: s)
      = ((mtch rest s).map fun gs => [c] :: gs).or
          ((mtch (.plusLazy p :: rest) s).map (consHead c)) := by
  conv_lhs => simp only [mtch]
  conv_rhs => simp only [mtch]
  have hrun : (c :: s).takeWhile p = c :: s.takeWhile p := by
    simp [List.takeWhile_cons, hc]
  rw [hrun, List.length_cons, List.range'_succ, findSome?_cons_or]
  congr 1
  all_goals first
    | rfl
    | (rw [show (1 : Nat) + 1 = 2 from rfl, range'_two_eq, List.findSome?_map,
        ← findSome?_option_map (consHead c)]
       congr 1
       funext k
       cases h : mtch rest (s.drop k) <;>
         simp [Function.comp, consHead, h])

theorem mtch_greedy_nil (p : Char → Bool) (rest : List RItem) :
    mtch (.plusGreedy p :: rest) [] = none := by
  simp [mtch]

theorem mtch_greedy_cons_not (p : Char → Bool) (c : Char) (s : List Char)
    (rest : List RItem) (hc : p c = false) :
    mtch (.plusGreedy p :: rest) (c :: s) = none := by
  simp [mtch, List.takeWhile_cons, hc]

theorem mtch_greedy_cons (p : Char → Bool) (c : Char) (s : List Char)
    (rest : List RItem) (hc : p c = true) :
    mtch (.plusGreedy p :: rest) (c :: s)
      = ((mtch (.plusGreedy p :: rest) s).map (consHead c)).or
          ((mtch rest s).map fun gs => [c] :: gs) := by
  conv_lhs => simp only [mtch]
  conv_rhs => simp only [mtch]
  have hrun : (c :: s).takeWhile p = c :: s.takeWhile p := by
    simp [List.takeWhile_cons, hc]
  rw [hrun, List.length_cons, List.range'_succ, List.reverse_cons,
    List.findSome?_append]
  congr 1
  all_goals first
    | rfl
    | (rw [findSome?_singleton]; simp [List.take_succ_cons, List.drop_succ_cons])
    | (rw [show (1 : Nat) + 1 = 2 from rfl, range'_two_eq, List.reverse_map,
        List.findSome?_map, ← findSome?_option_map (consHead c)]
       congr 1
       funext k
       cases h : mtch rest (s.drop k) <;>
         simp [Function.comp, consHead, h])

/-- If the first non-whitespace character of the input is not `|` (or there
is none), the pattern fragment `\s*\|` cannot match, whatever follows. -/
theorem mtch_bar_fail (rest : List RItem) : ∀ (s : List Char),
    (∀ c, (s.dropWhile pyWS).head? = some c → c ≠ '|') →
    mtch (.starWS :: .lit '|' :: rest) s = none
  | [], _ => by
    rw [mtch_star_nil]
    simp [mtch]
  | c :: s, h => by
    by_cases hc : pyWS c = true
    · rw [mtch_star_cons_ws c s _ hc]
      have ih := mtch_bar_fail rest s (by
        intro c' hc'
        apply h
        rwa [List.dropWhile_cons, if_pos hc])
      rw [ih]
      have hcb : c ≠ '|' := pyWS_ne_bar c hc
      simp [mtch, hcb]
    · rw [mtch_star_cons_not c s _ (by simpa using hc)]
      have hcb : c ≠ '|' := by
        apply h
        rw [List.dropWhile_cons, if_neg hc]
        rfl
      simp [mtch, hcb]

/-- The pattern fragment `\s*\|` consumes a whitespace run followed by `|`. -/
theorem mtch_ws_bound (rest : List RItem) (t : List Char) : ∀ (ws : List Char),
    ws.all pyWS = true →
    mtch (.starWS :: .lit '|' :: rest) (ws ++ '|' :: t) = mtch rest t
  | [], _ => by
    rw [List.nil_append, mtch_star_cons_not _ _ _ (by decide)]
    simp [mtch]
  | c :: ws, h => by
    rw [List.all_cons, Bool.and_eq_true] at h
    rw [List.cons_append, mtch_star_cons_ws _ _ _ h.1,
      mtch_ws_bound rest t ws h.2]
    have hcb : c ≠ '|' := pyWS_ne_bar c h.1
    simp [mtch, hcb]

/-- A list with a non-whitespace member somewhere and no `|` puts a non-`|`
character at the head of the whitespace-stripped concatenation. -/
theorem first_nonws_not_bar (m X : List Char) (hbar : '|' ∉ m)
    (hx : ∃ y ∈ m, pyWS y = false) :
    ∀ x, ((m ++ X).dropWhile pyWS).head? = some x → x ≠ '|' := by
  have hne : m.dropWhile pyWS ≠ [] := by
    intro hnil
    rw [List.dropWhile_eq_nil_iff] at hnil
    obtain ⟨y, hy, hyw⟩ := hx
    rw [hnil y hy] at hyw
    cases hyw
  intro x hx'
  rw [List.dropWhile_append] at hx'
  cases hdw : m.dropWhile pyWS with
  | nil => exact absurd hdw hne
  | cons y ys =>
    rw [hdw] at hx'
    simp only [List.isEmpty_cons, Bool.false_eq_true, if_false, List.cons_append,
      List.head?_cons, Option.some.injEq] at hx'
    subst hx'
    have hy : y ∈ m := List.dropWhile_subset pyWS
      (by rw [hdw]; exact List.mem_cons_self y ys)
    exact fun hbad => hbar (hbad ▸ hy)

/-- A lazy `(.+?)` group followed by `\s*\|` captures exactly the trimmed
field content: the shortest extension reaching a point from which `\s*\|`
matches ends precisely at the last non-whitespace character. -/
theorem mtch_lazy_core (rest : List RItem) (ws2 t : List Char)
    (gs : List (List Char)) (hws2 : ws2.all pyWS = true)
    (hrest : mtch rest t = some gs) :
    ∀ core : List Char, core ≠ [] → '|' ∉ core → '\n' ∉ core →
      (∀ x, core.getLast? = some x → pyWS x = false) →
      mtch (.plusLazy isDot :: .starWS :: .lit '|' :: rest)
        (core ++ (ws2 ++ '|' :: t)) = some (core :: gs)
  | [], hne, _, _, _ => absurd rfl hne
  | [c], _, _, hnl, _ => by
    have hdot : isDot c = true := by
      simp only [isDot, ne_eq, decide_eq_true_eq]
      rintro rfl
      exact hnl (List.mem_singleton.mpr rfl)
    rw [List.cons_append, List.nil_append, mtch_lazy_cons _ _ _ _ hdot,
      mtch_ws_bound rest t ws2 hws2, hrest]
    simp
  | c :: c' :: core, _, hbar, hnl, hlast => by
    have hdot : isDot c = true := by
      simp only [isDot, ne_eq, decide_eq_true_eq]
      rintro rfl
      exact hnl (List.mem_cons_self _ _)
    rw [List.cons_append, mtch_lazy_cons _ _ _ _ hdot]
    have hstop : mtch (.starWS :: .lit '|' :: rest)
        ((c' :: core) ++ (ws2 ++ '|' :: t)) = none := by
      apply mtch_bar_fail
      apply first_nonws_not_bar
      · intro hmem
        exact hbar (List.mem_cons_of_mem c hmem)
      · refine ⟨(c' :: core).getLast (by simp), List.getLast_mem _, ?_⟩
        apply hlast
        rw [List.getLast?_cons_cons]
        exact List.getLast?_eq_getLast _ _
    have ih := mtch_lazy_core rest ws2 t gs hws2 hrest (c' :: core)
      (by simp) (fun hmem => hbar (List.mem_cons_of_mem c hmem))
      (fun hmem => hnl (List.mem_cons_of_mem c hmem))
      (fun x hx => hlast x (by rwa [List.getLast?_cons_cons]))
    rw [hstop, ih]
    simp [consHead]

/-- The full mid-field fragment `\s*(.+?)\s*\|` on a field whose trimmed core
is non-empty, pipe-free and newline-free: the group captures the core. -/
theorem mtch_lazy_field (rest : List RItem) (core ws2 t : List Char)
    (gs : List (List Char)) (hws2 : ws2.all pyWS = true)
    (hrest : mtch rest t = some gs) (hcore : core ≠ []) (hbar : '|' ∉ core)
    (hnl : '\n' ∉ core)
    (hhead : ∀ x, core.head? = some x → pyWS x = false)
    (hlast : ∀ x, core.getLast? = some x → pyWS x = false) :
    ∀ ws1 : List Char, ws1.all pyWS = true →
      mtch (.starWS :: .plusLazy isDot :: .starWS :: .lit '|' :: rest)
        (ws1 ++ (core ++ (ws2 ++ '|' :: t))) = some (core :: gs)
  | [], _ => by
    rw [List.nil_append]
    cases core with
    | nil => exact absurd rfl hcore
    | cons ch core' =>
      rw [List.cons_append,
        mtch_star_cons_not _ _ _ (hhead ch rfl), ← List.cons_append]
      exact mtch_lazy_core rest ws2 t gs hws2 hrest (ch :: core') hcore hbar hnl hlast
  | c :: ws1, h => by
    rw [List.all_cons, Bool.and_eq_true] at h
    rw [List.cons_append, mtch_star_cons_ws _ _ _ h.1,
      mtch_lazy_field rest core ws2 t gs hws2 hrest hcore hbar hnl hhead hlast ws1 h.2]
    simp

/-- A greedy `([A-Za-z0-9]+)` group stops exactly at the end of the
alphanumeric run. -/
theorem mtch_alnum_core (rest : List RItem) (ws2 t : List Char)
    (gs : List (List Char)) (hws2 : ws2.all pyWS = true)
    (hrest : mtch rest t = some gs) :
    ∀ core : List Char, core ≠ [] → core.all isAlnumAscii = true →
      mtch (.plusGreedy isAlnumAscii :: .starWS :: .lit '|' :: rest)
        (core ++ (ws2 ++ '|' :: t)) = some (core :: gs)
  | [], hne, _ => absurd rfl hne
  | [c], _, hal => by
    rw [List.all_cons] at hal
    have hc := (Bool.and_eq_true _ _ |>.mp hal).1
    rw [List.cons_append, List.nil_append, mtch_greedy_cons _ _ _ _ hc]
    have hext : mtch (.plusGreedy isAlnumAscii :: .starWS :: .lit '|' :: rest)
        (ws2 ++ '|' :: t) = none := by
      cases hw : ws2 with
      | nil => exact mtch_greedy_cons_not _ _ _ _ (by decide)
      | cons w ws' =>
        rw [List.cons_append]
        apply mtch_greedy_cons_not
        apply pyWS_not_alnum
        rw [hw, List.all_cons, Bool.and_eq_true] at hws2
        exact hws2.1
    rw [hext, mtch_ws_bound rest t ws2 hws2, hrest]
    simp
  | c :: c' :: core, _, hal => by
    rw [List.all_cons, Bool.and_eq_true] at hal
    have ih := mtch_alnum_core rest ws2 t gs hws2 hrest (c' :: core)
      (by simp) hal.2
    rw [List.cons_append, mtch_greedy_cons _ _ _ _ hal.1, ih]
    simp [consHead]

/-- The full buyout-field fragment `\s*([A-Za-z0-9]+)\s*\|`. -/
theorem mtch_alnum_field (rest : List RItem) (core ws2 t : List Char)
    (gs : List (List Char)) (hws2 : ws2.all pyWS = true)
    (hrest : mtch rest t = some gs) (hcore : core ≠ [])
    (hal : core.all isAlnumAscii = true) :
    ∀ ws1 : List Char, ws1.all pyWS = true →
      mtch (.starWS :: .plusGreedy isAlnumAscii :: .starWS :: .lit '|' :: rest)
        (ws1 ++ (core ++ (ws2 ++ '|' :: t))) = some (core :: gs)
  | [], _ => by
    rw [List.nil_append]
    cases core with
    | nil => exact absurd rfl hcore
    | cons ch core' =>
      rw [List.all_cons, Bool.and_eq_true] at hal
      rw [List.cons_append,
        mtch_star_cons_not _ _ _ (alnum_not_pyWS ch hal.1), ← List.cons_append]
      exact mtch_alnum_core rest ws2 t gs hws2 hrest (ch :: core') hcore
        (by rw [List.all_cons, Bool.and_eq_true]; exact hal)
  | c :: ws1, h => by
    rw [List.all_cons, Bool.and_eq_true] at h
    rw [List.cons_append, mtch_star_cons_ws _ _ _ h.1,
      mtch_alnum_field rest core ws2 t gs hws2 hrest hcore hal ws1 h.2]
    simp

/-- The final greedy `(.+)$` group takes everything to the end of a
newline-free remainder. -/
theorem mtch_last_core : ∀ m : List Char, m ≠ [] → '\n' ∉ m →
    mtch [.plusGreedy isDot] m = some [m]
  | [], hne, _ => absurd rfl hne
  | [c], _, hnl => by
    have hdot : isDot c = true := by
      simp only [isDot, ne_eq, decide_eq_true_eq]
      rintro rfl
      exact hnl (List.mem_singleton.mpr rfl)
    rw [show ([c] : List Char) = c :: [] from rfl, mtch_greedy_cons _ _ _ _ hdot,
      mtch_greedy_nil]
    simp [mtch, endOk]
  | c :: c' :: m, _, hnl => by
    have hdot : isDot c = true := by
      simp only [isDot, ne_eq, decide_eq_true_eq]
      rintro rfl
      exact hnl (List.mem_cons_self _ _)
    have ih := mtch_last_core (c' :: m) (by simp)
      (fun hmem => hnl (List.mem_cons_of_mem c hmem))
    rw [mtch_greedy_cons _ _ _ _ hdot, ih]
    simp [consHead]

/-- The full final-field fragment `\s*(.+)$`. -/
theorem mtch_last_field (core ws2 : List Char) (hws2 : ws2.all pyWS = true)
    (hcore : core ≠ []) (hnlc : '\n' ∉ core) (hnlw : '\n' ∉ ws2)
    (hhead : ∀ x, core.head? = some x → pyWS x = false) :
    ∀ ws1 : List Char, ws1.all pyWS = true →
      mtch [.starWS, .plusGreedy isDot] (ws1 ++ (core ++ ws2))
        = some [core ++ ws2]
  | [], _ => by
    rw [List.nil_append]
    cases core with
    | nil => exact absurd rfl hcore
    | cons ch core' =>
      rw [List.cons_append, mtch_star_cons_not _ _ _ (hhead ch rfl),
        ← List.cons_append]
      apply mtch_last_core
      · simp
      · intro hmem
        rcases List.mem_append.mp hmem with hm | hm
        · exact hnlc hm
        · exact hnlw hm
  | c :: ws1, h => by
    rw [List.all_cons, Bool.and_eq_true] at h
    rw [List.cons_append, mtch_star_cons_ws _ _ _ h.1,
      mtch_last_field core ws2 hws2 hcore hnlc hnlw hhead ws1 h.2]
    simp

/-- The leading `([A-Z]{2}-[A-Z]{2})` group. -/
theorem mtch_fixed5 (rest : List RItem) (r : List Char) (c0 c1 l0 l1 : Char)
    (h0 : isUpperAZ c0 = true) (h1 : isUpperAZ c1 = true)
    (h2 : isUpperAZ l0 = true) (h3 : isUpperAZ l1 = true) :
    mtch (.grpFixed [isUpperAZ, isUpperAZ, fun c => c = '-', isUpperAZ, isUpperAZ]
        :: rest) ([c0, c1, '-', l0, l1] ++ r)
      = (mtch rest r).map ([c0, c1, '-', l0, l1] :: ·) := by
  have hmf : matchFixed [isUpperAZ, isUpperAZ, fun c => c = '-', isUpperAZ, isUpperAZ]
      ([c0, c1, '-', l0, l1] ++ r) = some ([c0, c1, '-', l0, l1], r) := by
    simp [matchFixed, h0, h1, h2, h3]
  simp only [mtch, hmf]

theorem dropWhile_all_append (p : Char → Bool) : ∀ (l1 l2 : List Char),
    l1.all p = true → (l1 ++ l2).dropWhile p = l2.dropWhile p
  | [], _, _ => rfl
  | c :: l1, l2, h => by
    rw [List.all_cons, Bool.and_eq_true] at h
    rw [List.cons_append, List.dropWhile_cons, if_pos h.1]
    exact dropWhile_all_append p l1 l2 h.2

/-- `str.strip()` of a trimmed core followed by trailing whitespace is the
core. -/
theorem pyStrip_trimmed (core ws2 : List Char) (hws2 : ws2.all pyWS = true)
    (hne : core ≠ [])
    (hhead : ∀ x, core.head? = some x → pyWS x = false)
    (hlast : ∀ x, core.getLast? = some x → pyWS x = false) :
    pyStrip (core ++ ws2) = core := by
  unfold pyStrip
  have h1 : (core ++ ws2).dropWhile pyWS = core ++ ws2 := by
    cases core with
    | nil => exact absurd rfl hne
    | cons ch t =>
      rw [List.cons_append, List.dropWhile_cons, if_neg (by simp [hhead ch rfl])]
  have h2 : core.reverse.dropWhile pyWS = core.reverse := by
    cases hr : core.reverse with
    | nil => rfl
    | cons y ys =>
      have hy : core.getLast? = some y := by
        rw [← List.head?_reverse, hr, List.head?_cons]
      rw [List.dropWhile_cons, if_neg (by simp [hlast y hy])]
  rw [h1, List.reverse_append,
    dropWhile_all_append pyWS ws2.reverse core.reverse (by rwa [List.all_reverse]),
    h2, List.reverse_reverse]

theorem pySplit_no_sep (sep : Char) : ∀ l : List Char,
    (∀ c ∈ l, c ≠ sep) → pySplit sep l = [l]
  | [], _ => rfl
  | c :: l, h => by
    have ih := pySplit_no_sep sep l fun x hx => h x (List.mem_cons_of_mem c hx)
    simp [pySplit, h c (List.mem_cons_self c l), ih]

theorem pyBasename_no_slash (l : List Char) (h : ∀ c ∈ l, c ≠ '/') :
    pyBasename l = l := by
  unfold pyBasename
  rw [pySplit_no_sep '/' l h]
  rfl

theorem upper_ne_slash (c : Char) (h : isUpperAZ c = true) : c ≠ '/' := by
  rintro rfl
  revert h
  decide

theorem alnum_ne_slash (c : Char) (h : isAlnumAscii c = true) : c ≠ '/' := by
  rintro rfl
  revert h
  decide

theorem alnum_head_not_ws (b : List Char) (hal : b.all isAlnumAscii = true) :
    ∀ x, b.head? = some x → pyWS x = false := by
  intro x hx
  cases b with
  | nil => cases hx
  | cons c t =>
    rw [List.head?_cons, Option.some.injEq] at hx
    subst hx
    rw [List.all_cons, Bool.and_eq_true] at hal
    exact alnum_not_pyWS _ hal.1

theorem alnum_last_not_ws (b : List Char) (hal : b.all isAlnumAscii = true) :
    ∀ x, b.getLast? = some x → pyWS x = false := by
  intro x hx
  have hxm : x ∈ b := List.mem_of_getLast?_eq_some hx
  exact alnum_not_pyWS x (List.all_eq_true.mp hal x hxm)

/-- C6 (amended): every filename of the documented shape — two-uppercase
country and language joined by a hyphen, then seven pipe-delimited fields,
where the first field (the buyout code) is one or more ASCII alphanumerics
and the six remaining fields contain at least one non-whitespace character
and no pipe, newline or slash — parses successfully, returning every field
trimmed of surrounding whitespace; each field is given as surrounding
whitespace `aᵢ`/`bᵢ` around a trimmed core `fᵢ`. -/
theorem c6_parse_conforming
    (c0 c1 l0 l1 : Char)
    (hc0 : isUpperAZ c0 = true) (hc1 : isUpperAZ c1 = true)
    (hl0 : isUpperAZ l0 = true) (hl1 : isUpperAZ l1 = true)
    (w0 : List Char) (hw0 : w0.all pyWS = true)
    (w1 bcore w2 : List Char) (hw1 : w1.all pyWS = true)
    (hbne : bcore ≠ []) (hbal : bcore.all isAlnumAscii = true)
    (hw2 : w2.all pyWS = true)
    (a3 f3 b3 : List Char) (ha3 : a3.all pyWS = true) (hb3 : b3.all pyWS = true)
    (hf3ne : f3 ≠ []) (hf3bar : '|' ∉ f3) (hf3nl : '\n' ∉ f3) (hf3sl : '/' ∉ f3)
    (hf3h : ∀ x, f3.head? = some x → pyWS x = false)
    (hf3l : ∀ x, f3.getLast? = some x → pyWS x = false)
    (a4 f4 b4 : List Char) (ha4 : a4.all pyWS = true) (hb4 : b4.all pyWS = true)
    (hf4ne : f4 ≠ []) (hf4bar : '|' ∉ f4) (hf4nl : '\n' ∉ f4) (hf4sl : '/' ∉ f4)
    (hf4h : ∀ x, f4.head? = some x → pyWS x = false)
    (hf4l : ∀ x, f4.getLast? = some x → pyWS x = false)
    (a5 f5 b5 : List Char) (ha5 : a5.all pyWS = true) (hb5 : b5.all pyWS = true)
    (hf5ne : f5 ≠ []) (hf5bar : '|' ∉ f5) (hf5nl : '\n' ∉ f5) (hf5sl : '/' ∉ f5)
    (hf5h : ∀ x, f5.head? = some x → pyWS x = false)
    (hf5l : ∀ x, f5.getLast? = some x → pyWS x = false)
    (a6 f6 b6 : List Char) (ha6 : a6.all pyWS = true) (hb6 : b6.all pyWS = true)
    (hf6ne : f6 ≠ []) (hf6bar : '|' ∉ f6) (hf6nl : '\n' ∉ f6) (hf6sl : '/' ∉ f6)
    (hf6h : ∀ x, f6.head? = some x → pyWS x = false)
    (hf6l : ∀ x, f6.getLast? = some x → pyWS x = false)
    (a7 f7 b7 : List Char) (ha7 : a7.all pyWS = true) (hb7 : b7.all pyWS = true)
    (hf7ne : f7 ≠ []) (hf7bar : '|' ∉ f7) (hf7nl : '\n' ∉ f7) (hf7sl : '/' ∉ f7)
    (hf7h : ∀ x, f7.head? = some x → pyWS x = false)
    (hf7l : ∀ x, f7.getLast? = some x → pyWS x = false)
    (a8 f8 b8 : List Char) (ha8 : a8.all pyWS = true) (hb8 : b8.all pyWS = true)
    (hf8ne : f8 ≠ []) (hf8bar : '|' ∉ f8) (hf8nl : '\n' ∉ f8) (hf8sl : '/' ∉ f8)
    (hb8nl : '\n' ∉ b8)
    (hf8h : ∀ x, f8.head? = some x → pyWS x = false)
    (hf8l : ∀ x, f8.getLast? = some x → pyWS x = false)
    (fn : List Char)
    (hfn : fn = [c0, c1, '-', l0, l1] ++ (w0 ++ '|' ::
      (w1 ++ (bcore ++ (w2 ++ '|' ::
      (a3 ++ (f3 ++ (b3 ++ '|' ::
      (a4 ++ (f4 ++ (b4 ++ '|' ::
      (a5 ++ (f5 ++ (b5 ++ '|' ::
      (a6 ++ (f6 ++ (b6 ++ '|' ::
      (a7 ++ (f7 ++ (b7 ++ '|' ::
      (a8 ++ (f8 ++ b8)))))))))))))))))))))) :
    parse_filename (String.mk fn)
      = some ⟨String.mk [c0, c1, '-', l0, l1], String.mk bcore, String.mk f3,
              String.mk f4, String.mk f5, String.mk f6, String.mk f7,
              String.mk f8, String.mk fn⟩ := by
  have hws_sl : ∀ (w : List Char), w.all pyWS = true → ∀ c ∈ w, c ≠ '/' :=
    fun w hw c hc => pyWS_ne_slash c (List.all_eq_true.mp hw c hc)
  have step_sl : ∀ (a f b t : List Char), a.all pyWS = true → b.all pyWS = true →
      '/' ∉ f → (∀ c ∈ t, c ≠ '/') →
      ∀ c ∈ a ++ (f ++ (b ++ '|' :: t)), c ≠ '/' := by
    intro a f b t ha hb hf ht c hc
    rcases List.mem_append.mp hc with h | h
    · exact hws_sl a ha c h
    rcases List.mem_append.mp h with h | h
    · exact fun hx => hf (hx ▸ h)
    rcases List.mem_append.mp h with h | h
    · exact hws_sl b hb c h
    rcases List.mem_cons.mp h with rfl | h
    · decide
    · exact ht c h
  have ht8 : ∀ c ∈ a8 ++ (f8 ++ b8), c ≠ '/' := by
    intro c hc
    rcases List.mem_append.mp hc with h | h
    · exact hws_sl a8 ha8 c h
    rcases List.mem_append.mp h with h | h
    · exact fun hx => hf8sl (hx ▸ h)
    · exact hws_sl b8 hb8 c h
  have ht7 := step_sl a7 f7 b7 _ ha7 hb7 hf7sl ht8
  have ht6 := step_sl a6 f6 b6 _ ha6 hb6 hf6sl ht7
  have ht5 := step_sl a5 f5 b5 _ ha5 hb5 hf5sl ht6
  have ht4 := step_sl a4 f4 b4 _ ha4 hb4 hf4sl ht5
  have ht3 := step_sl a3 f3 b3 _ ha3 hb3 hf3sl ht4
  have ht2 := step_sl w1 bcore w2 _ hw1 hw2
    (fun hmem => alnum_ne_slash '/' (List.all_eq_true.mp hbal '/' hmem) rfl) ht3
  have hsl : ∀ c ∈ fn, c ≠ '/' := by
    rw [hfn]
    intro c hc
    rcases List.mem_append.mp hc with h | h
    · simp only [List.mem_cons, List.not_mem_nil, or_false] at h
      rcases h with rfl | rfl | rfl | rfl | rfl
      · exact upper_ne_slash c hc0
      · exact upper_ne_slash c hc1
      · decide
      · exact upper_ne_slash c hl0
      · exact upper_ne_slash c hl1
    rcases List.mem_append.mp h with h | h
    · exact hws_sl w0 hw0 c h
    rcases List.mem_cons.mp h with rfl | h
    · decide
    · exact ht2 c h
  -- the match chain, from the last field leftwards
  have h8 : mtch [.starWS, .plusGreedy isDot] (a8 ++ (f8 ++ b8))
      = some [f8 ++ b8] :=
    mtch_last_field f8 b8 hb8 hf8ne hf8nl hb8nl hf8h a8 ha8
  have h7 := mtch_lazy_field [.starWS, .plusGreedy isDot] f7 b7 _ _ hb7 h8
    hf7ne hf7bar hf7nl hf7h hf7l a7 ha7
  have h6 := mtch_lazy_field
    (.starWS :: .plusLazy isDot :: .starWS :: .lit '|' :: [.starWS, .plusGreedy isDot])
    f6 b6 _ _ hb6 h7 hf6ne hf6bar hf6nl hf6h hf6l a6 ha6
  have h5 := mtch_lazy_field
    (.starWS :: .plusLazy isDot :: .starWS :: .lit '|' ::
      .starWS :: .plusLazy isDot :: .starWS :: .lit '|' :: [.starWS, .plusGreedy isDot])
    f5 b5 _ _ hb5 h6 hf5ne hf5bar hf5nl hf5h hf5l a5 ha5
  have h4 := mtch_lazy_field
    (.starWS :: .plusLazy isDot :: .starWS :: .lit '|' ::
      .starWS :: .plusLazy isDot :: .starWS :: .lit '|' ::
      .starWS :: .plusLazy isDot :: .starWS :: .lit '|' :: [.starWS, .plusGreedy isDot])
    f4 b4 _ _ hb4 h5 hf4ne hf4bar hf4nl hf4h hf4l a4 ha4
  have h3 := mtch_lazy_field
    (.starWS :: .plusLazy isDot :: .starWS :: .lit '|' ::
      .starWS :: .plusLazy isDot :: .starWS :: .lit '|' ::
      .starWS :: .plusLazy isDot :: .starWS :: .lit '|' ::
      .starWS :: .plusLazy isDot :: .starWS :: .lit '|' :: [.starWS, .plusGreedy isDot])
    f3 b3 _ _ hb3 h4 hf3ne hf3bar hf3nl hf3h hf3l a3 ha3
  have h2 := mtch_alnum_field
    (.starWS :: .plusLazy isDot :: .starWS :: .lit '|' ::
      .starWS :: .plusLazy isDot :: .starWS :: .lit '|' ::
      .starWS :: .plusLazy isDot :: .starWS :: .lit '|' ::
      .starWS :: .plusLazy isDot :: .starWS :: .lit '|' ::
      .starWS :: .plusLazy isDot :: .starWS :: .lit '|' :: [.starWS, .plusGreedy isDot])
    bcore w2 _ _ hw2 h3 hbne hbal w1 hw1
  have h1 := (mtch_ws_bound
    (.starWS :: .plusGreedy isAlnumAscii :: .starWS :: .lit '|' ::
      .starWS :: .plusLazy isDot :: .starWS :: .lit '|' ::
      .starWS :: .plusLazy isDot :: .starWS :: .lit '|' ::
      .starWS :: .plusLazy isDot :: .starWS :: .lit '|' ::
      .starWS :: .plusLazy isDot :: .starWS :: .lit '|' ::
      .starWS :: .plusLazy isDot :: .starWS :: .lit '|' :: [.starWS, .plusGreedy isDot])
    _ w0 hw0).trans h2
  have h0 : mtch filenameItems fn
      = some ([c0, c1, '-', l0, l1] :: bcore :: f3 :: f4 :: f5 :: f6 :: f7
          :: [f8 ++ b8]) := by
    rw [hfn]
    rw [show filenameItems
        = .grpFixed [isUpperAZ, isUpperAZ, fun c => c = '-', isUpperAZ, isUpperAZ]
          :: .starWS :: .lit '|'
          :: .starWS :: .plusGreedy isAlnumAscii :: .starWS :: .lit '|'
          :: .starWS :: .plusLazy isDot :: .starWS :: .lit '|'
          :: .starWS :: .plusLazy isDot :: .starWS :: .lit '|'
          :: .starWS :: .plusLazy isDot :: .starWS :: .lit '|'
          :: .starWS :: .plusLazy isDot :: .starWS :: .lit '|'
          :: .starWS :: .plusLazy isDot :: .starWS :: .lit '|'
          :: [.starWS, .plusGreedy isDot] from rfl]
    rw [mtch_fixed5 _ _ c0 c1 l0 l1 hc0 hc1 hl0 hl1, h1]
    rfl
  have hbase : pyBasename (String.mk fn).data = fn := pyBasename_no_slash fn hsl
  have s1 : pyStrip [c0, c1, '-', l0, l1] = [c0, c1, '-', l0, l1] := by
    have := pyStrip_trimmed [c0, c1, '-', l0, l1] [] rfl (by simp)
      (fun x hx => by
        rw [List.head?_cons, Option.some.injEq] at hx
        subst hx
        exact alnum_not_pyWS _ (upper_alnum _ hc0))
      (fun x hx => by
        have hxl : l1 = x := by simpa using hx
        subst hxl
        exact alnum_not_pyWS _ (upper_alnum _ hl1))
    simpa using this
  have sb : pyStrip bcore = bcore := by
    have := pyStrip_trimmed bcore [] rfl hbne (alnum_head_not_ws bcore hbal)
      (alnum_last_not_ws bcore hbal)
    simpa using this
  have s3 : pyStrip f3 = f3 := by
    have := pyStrip_trimmed f3 [] rfl hf3ne hf3h hf3l
    simpa using this
  have s4 : pyStrip f4 = f4 := by
    have := pyStrip_trimmed f4 [] rfl hf4ne hf4h hf4l
    simpa using this
  have s5 : pyStrip f5 = f5 := by
    have := pyStrip_trimmed f5 [] rfl hf5ne hf5h hf5l
    simpa using this
  have s6 : pyStrip f6 = f6 := by
    have := pyStrip_trimmed f6 [] rfl hf6ne hf6h hf6l
    simpa using this
  have s7 : pyStrip f7 = f7 := by
    have := pyStrip_trimmed f7 [] rfl hf7ne hf7h hf7l
    simpa using this
  have s8 : pyStrip (f8 ++ b8) = f8 := pyStrip_trimmed f8 b8 hb8 hf8ne hf8h hf8l
  simp only [parse_filename, hbase, h0, s1, sb, s3, s4, s5, s6, s7, s8]

/-- C6 counterexample: the claim says every filename whose seven fields are
non-empty and pipe-free parses.  Three conforming-by-the-claim filenames do
not: a buyout code containing a hyphen (the second group is `[A-Za-z0-9]+`),
a field containing a newline (`.` does not match newlines), and a field
containing a slash (`os.path.basename` truncates at the last slash). -/
theorem c6_counterexample :
    ("BUY-123".data ≠ [] ∧ '|' ∉ "BUY-123".data
      ∧ parse_filename "US-EN | BUY-123 | Concept | Audience | Side | Fmt | 30s | jpg"
          = none)
    ∧ ("Co\nncept".data ≠ [] ∧ '|' ∉ "Co\nncept".data
      ∧ parse_filename "US-EN | B1 | Co\nncept | Audience | Side | Fmt | 30s | jpg"
          = none)
    ∧ ("Co/ncept".data ≠ [] ∧ '|' ∉ "Co/ncept".data
      ∧ parse_filename "US-EN | B1 | Co/ncept | Audience | Side | Fmt | 30s | jpg"
          = none) := by
  exact ⟨⟨by decide, by decide, by decide⟩, ⟨by decide, by decide, by decide⟩,
    ⟨by decide, by decide, by decide⟩⟩

theorem fixed_head_not_ws (l : List Char) (c : Char) (hl : l.head? = some c)
    (hc : pyWS c = false) : ∀ x, l.head? = some x → pyWS x = false := by
  intro x hx
  rw [hl, Option.some.injEq] at hx
  subst hx
  exact hc

theorem fixed_last_not_ws (l : List Char) (c : Char) (hl : l.getLast? = some c)
    (hc : pyWS c = false) : ∀ x, l.getLast? = some x → pyWS x = false := by
  intro x hx
  rw [hl, Option.some.injEq] at hx
  subst hx
  exact hc

/-- Witness for C6 (amended): the spec's own example filename. -/
theorem c6_parse_conforming_witness :
    parse_filename "US-EN | BUY123 | Summer | Youth | Seller | Image | 30s | jpg"
      = some ⟨"US-EN", "BUY123", "Summer", "Youth", "Seller", "Image", "30s", "jpg",
              "US-EN | BUY123 | Summer | Youth | Seller | Image | 30s | jpg"⟩ := by
  have h := c6_parse_conforming 'U' 'S' 'E' 'N'
    (by decide) (by decide) (by decide) (by decide)
    [' '] (by decide)
    [' '] "BUY123".data [' '] (by decide) (by decide) (by decide) (by decide)
    [' '] "Summer".data [' '] (by decide) (by decide) (by decide) (by decide)
      (by decide) (by decide)
      (fixed_head_not_ws _ 'S' (by decide) (by decide))
      (fixed_last_not_ws _ 'r' (by decide) (by decide))
    [' '] "Youth".data [' '] (by decide) (by decide) (by decide) (by decide)
      (by decide) (by decide)
      (fixed_head_not_ws _ 'Y' (by decide) (by decide))
      (fixed_last_not_ws _ 'h' (by decide) (by decide))
    [' '] "Seller".data [' '] (by decide) (by decide) (by decide) (by decide)
      (by decide) (by decide)
      (fixed_head_not_ws _ 'S' (by decide) (by decide))
      (fixed_last_not_ws _ 'r' (by decide) (by decide))
    [' '] "Image".data [' '] (by decide) (by decide) (by decide) (by decide)
      (by decide) (by decide)
      (fixed_head_not_ws _ 'I' (by decide) (by decide))
      (fixed_last_not_ws _ 'e' (by decide) (by decide))
    [' '] "30s".data [' '] (by decide) (by decide) (by decide) (by decide)
      (by decide) (by decide)
      (fixed_head_not_ws _ '3' (by decide) (by decide))
      (fixed_last_not_ws _ 's' (by decide) (by decide))
    [' '] "jpg".data [] (by decide) (by decide) (by decide) (by decide)
      (by decide) (by decide) (by decide)
      (fixed_head_not_ws _ 'j' (by decide) (by decide))
      (fixed_last_not_ws _ 'g' (by decide) (by decide))
    "US-EN | BUY123 | Summer | Youth | Seller | Image | 30s | jpg".data
    (by decide)
  exact h.trans (by decide)

end MarketingAssets
